import Mathlib

/-!
# Verification of the bitcoin-lib-grpc key-derivation, address and transaction engine

This file is a shallow embedding, in Lean 4, of the core computation engine of
the `bitcoin-lib-grpc` service: BIP32 hierarchical key derivation
(`pkg/bitcoin/hd.go`, `core/hd.go`), address encoding and validation
(`pkg/bitcoin/address.go`), and transaction construction, signing and
serialization (`core/tx.go`).  The repository delegates its cryptographic
primitives (SHA-256, SHA-512, RIPEMD-160, secp256k1, Base58Check, Bech32) to
the btcsuite libraries; those primitives are implemented here executably,
following their public specifications, so that every definition can be
evaluated on concrete inputs.

Bytes are modelled as `List Nat` with every element below 256, and machine
words as `Nat` reduced modulo `2 ^ 32` or `2 ^ 64` where the code overflows.
Fallible operations return `Except` or `Option` values mirroring the Go
`(value, error)` pairs.
-/

namespace BtcLib

set_option maxRecDepth 10000000
set_option maxHeartbeats 10000000

/-- Decidable equality for `Except` values, so that concrete runs of the
fallible operations can be checked by evaluation. -/
instance exceptDecEq {ε α : Type} [DecidableEq ε] [DecidableEq α] :
    DecidableEq (Except ε α) := fun a b =>
  match a, b with
  | .ok x, .ok y =>
    if h : x = y then .isTrue (by rw [h]) else .isFalse (by simp [h])
  | .error x, .error y =>
    if h : x = y then .isTrue (by rw [h]) else .isFalse (by simp [h])
  | .ok _, .error _ => .isFalse (by simp)
  | .error _, .ok _ => .isFalse (by simp)

/-! ## Word and byte helpers -/

/-- Mask for a 32-bit word. -/
def m32 : Nat := 4294967295

/-- Mask for a 64-bit word. -/
def m64 : Nat := 18446744073709551615

/-- Right rotation of a 32-bit word. -/
def rotr32 (r x : Nat) : Nat :=
  ((x >>> r) ||| (x <<< (32 - r))) &&& m32

/-- Right rotation of a 64-bit word. -/
def rotr64 (r x : Nat) : Nat :=
  ((x >>> r) ||| (x <<< (64 - r))) &&& m64

/-- Left rotation of a 32-bit word (used by RIPEMD-160). -/
def rotl32 (r x : Nat) : Nat :=
  ((x <<< r) ||| (x >>> (32 - r))) &&& m32

/-- Bitwise complement of a 32-bit word. -/
def not32 (x : Nat) : Nat := x ^^^ m32

/-- Bitwise complement of a 64-bit word. -/
def not64 (x : Nat) : Nat := x ^^^ m64

/-- Big-endian bytes of a 32-bit word. -/
def be32 (x : Nat) : List Nat :=
  [(x >>> 24) &&& 255, (x >>> 16) &&& 255, (x >>> 8) &&& 255, x &&& 255]

/-- Big-endian bytes of a 64-bit word. -/
def be64 (x : Nat) : List Nat :=
  [(x >>> 56) &&& 255, (x >>> 48) &&& 255, (x >>> 40) &&& 255,
   (x >>> 32) &&& 255, (x >>> 24) &&& 255, (x >>> 16) &&& 255,
   (x >>> 8) &&& 255, x &&& 255]

/-- Little-endian bytes of a 32-bit word. -/
def le32 (x : Nat) : List Nat :=
  [x &&& 255, (x >>> 8) &&& 255, (x >>> 16) &&& 255, (x >>> 24) &&& 255]

/-- Little-endian bytes of a 64-bit word. -/
def le64 (x : Nat) : List Nat :=
  [x &&& 255, (x >>> 8) &&& 255, (x >>> 16) &&& 255, (x >>> 24) &&& 255,
   (x >>> 32) &&& 255, (x >>> 40) &&& 255, (x >>> 48) &&& 255,
   (x >>> 56) &&& 255]

/-- Interpret a byte list as a big-endian natural number. -/
def beToNat (bs : List Nat) : Nat :=
  bs.foldl (fun acc b => acc * 256 + b) 0

/-- Fuel-based most-significant-first digit extraction in a given base. -/
def natToBaseAux (base : Nat) : Nat → Nat → List Nat
  | 0, _ => []
  | fuel + 1, n =>
    if n = 0 then [] else natToBaseAux base fuel (n / base) ++ [n % base]

/-- Minimal digit representation of a natural number in a given base,
most significant first (empty for zero). -/
def natToBase (base n : Nat) : List Nat := natToBaseAux base (n + 1) n

/-- Minimal big-endian byte representation of a natural number
(empty for zero). -/
def natToBE (n : Nat) : List Nat := natToBase 256 n

/-- Digits of a natural number in a given base, most significant first,
padded (or truncated) to a fixed width. -/
def natToBasePad (base : Nat) : Nat → Nat → List Nat
  | 0, _ => []
  | w + 1, n => natToBasePad base w (n / base) ++ [n % base]

/-- Value of a digit list in a given base, most significant first. -/
def baseToNat (base : Nat) (ds : List Nat) : Nat :=
  ds.foldl (fun acc d => acc * base + d) 0

/-- Big-endian byte representation padded (or truncated) to a fixed width. -/
def natToBEPad (w n : Nat) : List Nat := natToBasePad 256 w n

/-- Unicode code points of a string's characters (for ASCII data these are
exactly the bytes Go iterates over). -/
def strNats (s : String) : List Nat := s.data.map Char.toNat

/-- Split a list into chunks of `k` elements (fuel-based). -/
def chunksAux (k : Nat) : Nat → List Nat → List (List Nat)
  | 0, _ => []
  | _, [] => []
  | fuel + 1, xs => xs.take k :: chunksAux k fuel (xs.drop k)

/-- Split a list into chunks of `k` elements. -/
def chunks (k : Nat) (xs : List Nat) : List (List Nat) :=
  chunksAux k (xs.length + 1) xs

/-! ## Hexadecimal encoding and decoding (Go `encoding/hex`) -/

/-- Value of one hexadecimal digit, or `none`. -/
def hexDigit (c : Char) : Option Nat :=
  if ('0' ≤ c ∧ c ≤ '9') then some (c.toNat - '0'.toNat)
  else if ('a' ≤ c ∧ c ≤ 'f') then some (c.toNat - 'a'.toNat + 10)
  else if ('A' ≤ c ∧ c ≤ 'F') then some (c.toNat - 'A'.toNat + 10)
  else none

/-- Lowercase hexadecimal digit character for a value below 16. -/
def hexChar (n : Nat) : Char :=
  if n < 10 then Char.ofNat ('0'.toNat + n) else Char.ofNat ('a'.toNat + n - 10)

/-- Decode a hex string into bytes; `none` on an odd length or a bad digit,
mirroring Go `hex.DecodeString`. -/
def hexDecodeChars : List Char → Option (List Nat)
  | [] => some []
  | [_] => none
  | c1 :: c2 :: rest => do
    let h ← hexDigit c1
    let l ← hexDigit c2
    let tl ← hexDecodeChars rest
    pure ((h * 16 + l) :: tl)

/-- Decode a hex string into bytes (string wrapper). -/
def hexDecode (s : String) : Option (List Nat) :=
  hexDecodeChars s.data

/-- Encode bytes as a lowercase hex string, mirroring Go
`hex.EncodeToString`. -/
def hexEncode (bs : List Nat) : String :=
  ⟨bs.foldr (fun b acc => hexChar (b / 16) :: hexChar (b % 16) :: acc) []⟩

/-! ## SHA-256 -/

/-- SHA-256 round constants. -/
def sha256K : List Nat :=
  [0x428A2F98, 0x71374491, 0xB5C0FBCF, 0xE9B5DBA5,
   0x3956C25B, 0x59F111F1, 0x923F82A4, 0xAB1C5ED5,
   0xD807AA98, 0x12835B01, 0x243185BE, 0x550C7DC3,
   0x72BE5D74, 0x80DEB1FE, 0x9BDC06A7, 0xC19BF174,
   0xE49B69C1, 0xEFBE4786, 0x0FC19DC6, 0x240CA1CC,
   0x2DE92C6F, 0x4A7484AA, 0x5CB0A9DC, 0x76F988DA,
   0x983E5152, 0xA831C66D, 0xB00327C8, 0xBF597FC7,
   0xC6E00BF3, 0xD5A79147, 0x06CA6351, 0x14292967,
   0x27B70A85, 0x2E1B2138, 0x4D2C6DFC, 0x53380D13,
   0x650A7354, 0x766A0ABB, 0x81C2C92E, 0x92722C85,
   0xA2BFE8A1, 0xA81A664B, 0xC24B8B70, 0xC76C51A3,
   0xD192E819, 0xD6990624, 0xF40E3585, 0x106AA070,
   0x19A4C116, 0x1E376C08, 0x2748774C, 0x34B0BCB5,
   0x391C0CB3, 0x4ED8AA4A, 0x5B9CCA4F, 0x682E6FF3,
   0x748F82EE, 0x78A5636F, 0x84C87814, 0x8CC70208,
   0x90BEFFFA, 0xA4506CEB, 0xBEF9A3F7, 0xC67178F2]

/-- SHA-256 compression state: eight 32-bit words. -/
structure Sha256St where
  a : Nat
  b : Nat
  c : Nat
  d : Nat
  e : Nat
  f : Nat
  g : Nat
  h : Nat
deriving Repr, DecidableEq

/-- SHA-256 initial hash value. -/
def sha256H0 : Sha256St :=
  ⟨0x6a09e667, 0xbb67ae85, 0x3c6ef372, 0xa54ff53a,
   0x510e527f, 0x9b05688c, 0x1f83d9ab, 0x5be0cd19⟩

/-- Pad a message per SHA-256 (length in bits appended big-endian). -/
def sha256Pad (msg : List Nat) : List Nat :=
  let l := msg.length
  msg ++ [0x80] ++ List.replicate ((64 - (l + 9) % 64) % 64) 0 ++ be64 (8 * l)

/-- Message-schedule extension: given the reversed schedule so far, compute
`fuel` further words. -/
def sha256Extend : Nat → List Nat → List Nat
  | 0, acc => acc
  | fuel + 1, acc =>
    let w2 := acc.getD 1 0
    let w7 := acc.getD 6 0
    let w15 := acc.getD 14 0
    let w16 := acc.getD 15 0
    let s0 := rotr32 7 w15 ^^^ rotr32 18 w15 ^^^ (w15 >>> 3)
    let s1 := rotr32 17 w2 ^^^ rotr32 19 w2 ^^^ (w2 >>> 10)
    sha256Extend fuel (((s1 + w7 + s0 + w16) &&& m32) :: acc)

/-- Full 64-word message schedule of one 64-byte block. -/
def sha256Schedule (block : List Nat) : List Nat :=
  let w16 := (chunks 4 block).map beToNat
  (sha256Extend 48 w16.reverse).reverse

/-- One SHA-256 round. -/
def sha256Round (st : Sha256St) (k w : Nat) : Sha256St :=
  let S1 := rotr32 6 st.e ^^^ rotr32 11 st.e ^^^ rotr32 25 st.e
  let ch := (st.e &&& st.f) ^^^ (not32 st.e &&& st.g)
  let t1 := (st.h + S1 + ch + k + w) &&& m32
  let S0 := rotr32 2 st.a ^^^ rotr32 13 st.a ^^^ rotr32 22 st.a
  let mj := (st.a &&& st.b) ^^^ (st.a &&& st.c) ^^^ (st.b &&& st.c)
  let t2 := (S0 + mj) &&& m32
  ⟨(t1 + t2) &&& m32, st.a, st.b, st.c, (st.d + t1) &&& m32, st.e, st.f, st.g⟩

/-- Process one 64-byte block. -/
def sha256Block (st : Sha256St) (block : List Nat) : Sha256St :=
  let ws := sha256Schedule block
  let r := (sha256K.zip ws).foldl (fun s kw => sha256Round s kw.1 kw.2) st
  ⟨(st.a + r.a) &&& m32, (st.b + r.b) &&& m32, (st.c + r.c) &&& m32,
   (st.d + r.d) &&& m32, (st.e + r.e) &&& m32, (st.f + r.f) &&& m32,
   (st.g + r.g) &&& m32, (st.h + r.h) &&& m32⟩

/-- SHA-256 of a byte list, as 32 bytes. -/
def sha256 (msg : List Nat) : List Nat :=
  let fin := (chunks 64 (sha256Pad msg)).foldl sha256Block sha256H0
  be32 fin.a ++ be32 fin.b ++ be32 fin.c ++ be32 fin.d ++
  be32 fin.e ++ be32 fin.f ++ be32 fin.g ++ be32 fin.h

/-- Double SHA-256, the protocol's transaction / checksum hash
(`chainhash.DoubleHashB`). -/
def doubleSHA256 (msg : List Nat) : List Nat := sha256 (sha256 msg)

/-! ## SHA-512 and HMAC-SHA512 (BIP32 child derivation) -/

/-- SHA-512 round constants. -/
def sha512K : List Nat :=
  [0x428A2F98D728AE22, 0x7137449123EF65CD, 0xB5C0FBCFEC4D3B2F, 0xE9B5DBA58189DBBC,
   0x3956C25BF348B538, 0x59F111F1B605D019, 0x923F82A4AF194F9B, 0xAB1C5ED5DA6D8118,
   0xD807AA98A3030242, 0x12835B0145706FBE, 0x243185BE4EE4B28C, 0x550C7DC3D5FFB4E2,
   0x72BE5D74F27B896F, 0x80DEB1FE3B1696B1, 0x9BDC06A725C71235, 0xC19BF174CF692694,
   0xE49B69C19EF14AD2, 0xEFBE4786384F25E3, 0x0FC19DC68B8CD5B5, 0x240CA1CC77AC9C65,
   0x2DE92C6F592B0275, 0x4A7484AA6EA6E483, 0x5CB0A9DCBD41FBD4, 0x76F988DA831153B5,
   0x983E5152EE66DFAB, 0xA831C66D2DB43210, 0xB00327C898FB213F, 0xBF597FC7BEEF0EE4,
   0xC6E00BF33DA88FC2, 0xD5A79147930AA725, 0x06CA6351E003826F, 0x142929670A0E6E70,
   0x27B70A8546D22FFC, 0x2E1B21385C26C926, 0x4D2C6DFC5AC42AED, 0x53380D139D95B3DF,
   0x650A73548BAF63DE, 0x766A0ABB3C77B2A8, 0x81C2C92E47EDAEE6, 0x92722C851482353B,
   0xA2BFE8A14CF10364, 0xA81A664BBC423001, 0xC24B8B70D0F89791, 0xC76C51A30654BE30,
   0xD192E819D6EF5218, 0xD69906245565A910, 0xF40E35855771202A, 0x106AA07032BBD1B8,
   0x19A4C116B8D2D0C8, 0x1E376C085141AB53, 0x2748774CDF8EEB99, 0x34B0BCB5E19B48A8,
   0x391C0CB3C5C95A63, 0x4ED8AA4AE3418ACB, 0x5B9CCA4F7763E373, 0x682E6FF3D6B2B8A3,
   0x748F82EE5DEFB2FC, 0x78A5636F43172F60, 0x84C87814A1F0AB72, 0x8CC702081A6439EC,
   0x90BEFFFA23631E28, 0xA4506CEBDE82BDE9, 0xBEF9A3F7B2C67915, 0xC67178F2E372532B,
   0xCA273ECEEA26619C, 0xD186B8C721C0C207, 0xEADA7DD6CDE0EB1E, 0xF57D4F7FEE6ED178,
   0x06F067AA72176FBA, 0x0A637DC5A2C898A6, 0x113F9804BEF90DAE, 0x1B710B35131C471B,
   0x28DB77F523047D84, 0x32CAAB7B40C72493, 0x3C9EBE0A15C9BEBC, 0x431D67C49C100D4C,
   0x4CC5D4BECB3E42B6, 0x597F299CFC657E2A, 0x5FCB6FAB3AD6FAEC, 0x6C44198C4A475817]

/-- SHA-512 compression state: eight 64-bit words. -/
structure Sha512St where
  a : Nat
  b : Nat
  c : Nat
  d : Nat
  e : Nat
  f : Nat
  g : Nat
  h : Nat
deriving Repr, DecidableEq

/-- SHA-512 initial hash value. -/
def sha512H0 : Sha512St :=
  ⟨0x6a09e667f3bcc908, 0xbb67ae8584caa73b, 0x3c6ef372fe94f82b, 0xa54ff53a5f1d36f1,
   0x510e527fade682d1, 0x9b05688c2b3e6c1f, 0x1f83d9abfb41bd6b, 0x5be0cd19137e2179⟩

/-- Pad a message per SHA-512 (128-byte blocks, 16-byte length field; the
16-byte field is `be64 0 ++ be64 (bits)` for all message sizes arising here). -/
def sha512Pad (msg : List Nat) : List Nat :=
  let l := msg.length
  msg ++ [0x80] ++ List.replicate ((128 - (l + 17) % 128) % 128) 0 ++
    be64 0 ++ be64 (8 * l)

/-- Message-schedule extension for SHA-512 (reversed accumulator). -/
def sha512Extend : Nat → List Nat → List Nat
  | 0, acc => acc
  | fuel + 1, acc =>
    let w2 := acc.getD 1 0
    let w7 := acc.getD 6 0
    let w15 := acc.getD 14 0
    let w16 := acc.getD 15 0
    let s0 := rotr64 1 w15 ^^^ rotr64 8 w15 ^^^ (w15 >>> 7)
    let s1 := rotr64 19 w2 ^^^ rotr64 61 w2 ^^^ (w2 >>> 6)
    sha512Extend fuel (((s1 + w7 + s0 + w16) &&& m64) :: acc)

/-- Full 80-word message schedule of one 128-byte block. -/
def sha512Schedule (block : List Nat) : List Nat :=
  let w16 := (chunks 8 block).map beToNat
  (sha512Extend 64 w16.reverse).reverse

/-- One SHA-512 round. -/
def sha512Round (st : Sha512St) (k w : Nat) : Sha512St :=
  let S1 := rotr64 14 st.e ^^^ rotr64 18 st.e ^^^ rotr64 41 st.e
  let ch := (st.e &&& st.f) ^^^ (not64 st.e &&& st.g)
  let t1 := (st.h + S1 + ch + k + w) &&& m64
  let S0 := rotr64 28 st.a ^^^ rotr64 34 st.a ^^^ rotr64 39 st.a
  let mj := (st.a &&& st.b) ^^^ (st.a &&& st.c) ^^^ (st.b &&& st.c)
  let t2 := (S0 + mj) &&& m64
  ⟨(t1 + t2) &&& m64, st.a, st.b, st.c, (st.d + t1) &&& m64, st.e, st.f, st.g⟩

/-- Process one 128-byte block. -/
def sha512Block (st : Sha512St) (block : List Nat) : Sha512St :=
  let ws := sha512Schedule block
  let r := (sha512K.zip ws).foldl (fun s kw => sha512Round s kw.1 kw.2) st
  ⟨(st.a + r.a) &&& m64, (st.b + r.b) &&& m64, (st.c + r.c) &&& m64,
   (st.d + r.d) &&& m64, (st.e + r.e) &&& m64, (st.f + r.f) &&& m64,
   (st.g + r.g) &&& m64, (st.h + r.h) &&& m64⟩

/-- SHA-512 of a byte list, as 64 bytes. -/
def sha512 (msg : List Nat) : List Nat :=
  let fin := (chunks 128 (sha512Pad msg)).foldl sha512Block sha512H0
  be64 fin.a ++ be64 fin.b ++ be64 fin.c ++ be64 fin.d ++
  be64 fin.e ++ be64 fin.f ++ be64 fin.g ++ be64 fin.h

/-- HMAC-SHA512 with a key of at most 128 bytes (the only case used by
BIP32: the chain code or the string literal used for master keys). -/
def hmacSHA512 (key msg : List Nat) : List Nat :=
  let k0 := key ++ List.replicate (128 - key.length) 0
  let ip := k0.map (fun b => b ^^^ 0x36)
  let op := k0.map (fun b => b ^^^ 0x5c)
  sha512 (op ++ sha512 (ip ++ msg))

/-! ## RIPEMD-160 -/

/-- RIPEMD-160 selection functions `f1 .. f5`. -/
def rmdF (j x y z : Nat) : Nat :=
  if j < 16 then x ^^^ y ^^^ z
  else if j < 32 then (x &&& y) ||| (not32 x &&& z)
  else if j < 48 then (x ||| not32 y) ^^^ z
  else if j < 64 then (x &&& z) ||| (y &&& not32 z)
  else x ^^^ (y ||| not32 z)

/-- RIPEMD-160 left-line round constants. -/
def rmdK (j : Nat) : Nat :=
  if j < 16 then 0 else if j < 32 then 0x5a827999
  else if j < 48 then 0x6ed9eba1 else if j < 64 then 0x8f1bbcdc
  else 0xa953fd4e

/-- RIPEMD-160 right-line round constants. -/
def rmdKr (j : Nat) : Nat :=
  if j < 16 then 0x50a28be6 else if j < 32 then 0x5c4dd124
  else if j < 48 then 0x6d703ef3 else if j < 64 then 0x7a6d76e9
  else 0

/-- RIPEMD-160 left-line message word order. -/
def rmdR : List Nat :=
  [0, 1, 2, 3, 4, 5, 6, 7, 8, 9, 10, 11, 12, 13, 14, 15,
   7, 4, 13, 1, 10, 6, 15, 3, 12, 0, 9, 5, 2, 14, 11, 8,
   3, 10, 14, 4, 9, 15, 8, 1, 2, 7, 0, 6, 13, 11, 5, 12,
   1, 9, 11, 10, 0, 8, 12, 4, 13, 3, 7, 15, 14, 5, 6, 2,
   4, 0, 5, 9, 7, 12, 2, 10, 14, 1, 3, 8, 11, 6, 15, 13]

/-- RIPEMD-160 right-line message word order. -/
def rmdRr : List Nat :=
  [5, 14, 7, 0, 9, 2, 11, 4, 13, 6, 15, 8, 1, 10, 3, 12,
   6, 11, 3, 7, 0, 13, 5, 10, 14, 15, 8, 12, 4, 9, 1, 2,
   15, 5, 1, 3, 7, 14, 6, 9, 11, 8, 12, 2, 10, 0, 4, 13,
   8, 6, 4, 1, 3, 11, 15, 0, 5, 12, 2, 13, 9, 7, 10, 14,
   12, 15, 10, 4, 1, 5, 8, 7, 6, 2, 13, 14, 0, 3, 9, 11]

/-- RIPEMD-160 left-line rotation amounts. -/
def rmdS : List Nat :=
  [11, 14, 15, 12, 5, 8, 7, 9, 11, 13, 14, 15, 6, 7, 9, 8,
   7, 6, 8, 13, 11, 9, 7, 15, 7, 12, 15, 9, 11, 7, 13, 12,
   11, 13, 6, 7, 14, 9, 13, 15, 14, 8, 13, 6, 5, 12, 7, 5,
   11, 12, 14, 15, 14, 15, 9, 8, 9, 14, 5, 6, 8, 6, 5, 12,
   9, 15, 5, 11, 6, 8, 13, 12, 5, 12, 13, 14, 11, 8, 5, 6]

/-- RIPEMD-160 right-line rotation amounts. -/
def rmdSr : List Nat :=
  [8, 9, 9, 11, 13, 15, 15, 5, 7, 7, 8, 11, 14, 14, 12, 6,
   9, 13, 15, 7, 12, 8, 9, 11, 7, 7, 12, 7, 6, 15, 13, 11,
   9, 7, 15, 11, 8, 6, 6, 14, 12, 13, 5, 14, 13, 13, 7, 5,
   15, 5, 8, 11, 14, 14, 6, 14, 6, 9, 12, 9, 12, 5, 15, 8,
   8, 5, 12, 9, 12, 5, 14, 6, 8, 13, 6, 5, 15, 13, 11, 11]

/-- RIPEMD-160 five-register line state. -/
structure RmdSt where
  a : Nat
  b : Nat
  c : Nat
  d : Nat
  e : Nat
deriving Repr, DecidableEq

/-- One RIPEMD-160 step on one line. -/
def rmdStep (x : List Nat) (left : Bool) (st : RmdSt) (j : Nat) : RmdSt :=
  let fj := if left then j else 79 - j
  let k := if left then rmdK j else rmdKr j
  let r := if left then rmdR.getD j 0 else rmdRr.getD j 0
  let s := if left then rmdS.getD j 0 else rmdSr.getD j 0
  let t := rotl32 s ((st.a + rmdF fj st.b st.c st.d + x.getD r 0 + k) &&& m32)
  ⟨st.e, (t + st.e) &&& m32, st.b, rotl32 10 st.c, st.d⟩

/-- Process one 64-byte block of RIPEMD-160; `h` is the running chaining
value. -/
def rmdBlock (h : RmdSt) (block : List Nat) : RmdSt :=
  let x := (chunks 4 block).map (fun c => beToNat c.reverse)
  let l := (List.range 80).foldl (rmdStep x true) h
  let r := (List.range 80).foldl (rmdStep x false) h
  ⟨(h.b + l.c + r.d) &&& m32, (h.c + l.d + r.e) &&& m32,
   (h.d + l.e + r.a) &&& m32, (h.e + l.a + r.b) &&& m32,
   (h.a + l.b + r.c) &&& m32⟩

/-- Pad a message per RIPEMD-160 (length appended little-endian). -/
def rmdPad (msg : List Nat) : List Nat :=
  let l := msg.length
  msg ++ [0x80] ++ List.replicate ((64 - (l + 9) % 64) % 64) 0 ++ le64 (8 * l)

/-- RIPEMD-160 of a byte list, as 20 bytes. -/
def ripemd160 (msg : List Nat) : List Nat :=
  let fin := (chunks 64 (rmdPad msg)).foldl rmdBlock
    ⟨0x67452301, 0xefcdab89, 0x98badcfe, 0x10325476, 0xc3d2e1f0⟩
  le32 fin.a ++ le32 fin.b ++ le32 fin.c ++ le32 fin.d ++ le32 fin.e

/-- HASH160 = RIPEMD160 of SHA256, `btcutil.Hash160`. -/
def hash160 (msg : List Nat) : List Nat := ripemd160 (sha256 msg)

/-! ## Base58 and Base58Check (`btcutil/base58`) -/

/-- The Base58 alphabet. -/
def b58Alphabet : List Char :=
  ['1', '2', '3', '4', '5', '6', '7', '8', '9',
   'A', 'B', 'C', 'D', 'E', 'F', 'G', 'H', 'J', 'K', 'L', 'M', 'N',
   'P', 'Q', 'R', 'S', 'T', 'U', 'V', 'W', 'X', 'Y', 'Z',
   'a', 'b', 'c', 'd', 'e', 'f', 'g', 'h', 'i', 'j', 'k', 'm', 'n',
   'o', 'p', 'q', 'r', 's', 't', 'u', 'v', 'w', 'x', 'y', 'z']

/-- Character for one Base58 digit value. -/
def b58Char (d : Nat) : Char := b58Alphabet.getD d '?'

/-- Unicode code points of the Base58 alphabet (kept as plain naturals so
that concrete decoding reduces quickly). -/
def b58Nats : List Nat :=
  [49, 50, 51, 52, 53, 54, 55, 56, 57,
   65, 66, 67, 68, 69, 70, 71, 72, 74, 75, 76, 77, 78,
   80, 81, 82, 83, 84, 85, 86, 87, 88, 89, 90,
   97, 98, 99, 100, 101, 102, 103, 104, 105, 106, 107, 109, 110,
   111, 112, 113, 114, 115, 116, 117, 118, 119, 120, 121, 122]

/-- Value of one Base58 character (as a code point), or `none` for a
character outside the alphabet. -/
def b58Val (c : Nat) : Option Nat :=
  b58Nats.indexOf? c

/-- Base58 digits of a natural number, most significant first
(empty for zero). -/
def natToB58 (n : Nat) : List Nat := natToBase 58 n

/-- Count of leading elements equal to `z`. -/
def leadCount (z : Nat) : List Nat → Nat
  | [] => 0
  | b :: rest => if b = z then leadCount z rest + 1 else 0

/-- Base58-encode a byte list: one `1` per leading zero byte, then the
Base58 digits of the big-endian value. -/
def b58Encode (bs : List Nat) : List Char :=
  List.replicate (leadCount 0 bs) '1' ++ (natToB58 (beToNat bs)).map b58Char

/-- Count of leading `1` characters (code point 49). -/
def leadOnes : List Nat → Nat
  | [] => 0
  | c :: rest => if c = 49 then leadOnes rest + 1 else 0

/-- Values of a code-point list under the Base58 alphabet, or `none` if
any character is invalid. -/
def b58Vals : List Nat → Option (List Nat)
  | [] => some []
  | c :: rest => do
    let v ← b58Val c
    let tl ← b58Vals rest
    pure (v :: tl)

/-- Base58-decode a code-point list: the big-endian bytes of the value,
preceded by one zero byte per leading `1`; `none` on an invalid
character. -/
def b58Decode (cs : List Nat) : Option (List Nat) := do
  let vs ← b58Vals cs
  let n := baseToNat 58 vs
  pure (List.replicate (leadOnes cs) 0 ++ natToBE n)

/-- Base58Check encoding with a one-byte version prefix
(`base58.CheckEncode`): payload is versioned, a 4-byte double-SHA256
checksum is appended, and the whole is Base58 encoded. -/
def b58CheckEncode (version : Nat) (payload : List Nat) : List Char :=
  let body := version :: payload
  b58Encode (body ++ (doubleSHA256 body).take 4)

/-- Base58 encoding of a raw payload with an appended 4-byte double-SHA256
checksum (the form used by `hdkeychain.ExtendedKey.String`). -/
def b58CheckEncodeRaw (payload : List Nat) : List Char :=
  b58Encode (payload ++ (doubleSHA256 payload).take 4)

/-- Errors produced while decoding a Base58Check string. -/
inductive B58Err where
  /-- A character outside the Base58 alphabet. -/
  | badChar : B58Err
  /-- The decoded payload is too short to carry a checksum and version. -/
  | badLength : Nat → B58Err
  /-- Checksum mismatch, carrying expected and actual 4-byte checksums. -/
  | badChecksum : List Nat → List Nat → B58Err
deriving Repr, DecidableEq

/-- Base58Check decoding (`base58.CheckDecode`): Base58-decode, verify
length and the 4-byte double-SHA256 checksum, and return the version byte
and payload. -/
def b58CheckDecode (cs : List Nat) : Except B58Err (Nat × List Nat) :=
  match b58Decode cs with
  | none => .error .badChar
  | some bs =>
    if bs.length < 5 then .error (.badLength bs.length)
    else
      let body := bs.take (bs.length - 4)
      let cksum := bs.drop (bs.length - 4)
      let expected := (doubleSHA256 body).take 4
      if cksum ≠ expected then .error (.badChecksum expected cksum)
      else .ok (body.headD 0, body.tail)

/-! ## secp256k1 -/

/-- The secp256k1 field prime. -/
def secpP : Nat :=
  0xfffffffffffffffffffffffffffffffffffffffffffffffffffffffefffffc2f

/-- The secp256k1 group order. -/
def secpN : Nat :=
  0xfffffffffffffffffffffffffffffffebaaedce6af48a03bbfd25e8cd0364141

/-- x-coordinate of the secp256k1 base point. -/
def secpGx : Nat :=
  0x79be667ef9dcbbac55a06295ce870b07029bfcdb2dce28d959f2815b16f81798

/-- y-coordinate of the secp256k1 base point. -/
def secpGy : Nat :=
  0x483ada7726a3c4655da4fbfc0e1108a8fd17b448a68554199c47d08ffb10d4b8

/-- Fuel-based square-and-multiply modular exponentiation (structural
recursion so concrete instances reduce in the kernel). -/
def powModAux : Nat → Nat → Nat → Nat → Nat → Nat
  | 0, _, _, _, acc => acc
  | fuel + 1, b, e, m, acc =>
    if e = 0 then acc
    else powModAux fuel (b * b % m) (e / 2) m (if e % 2 = 1 then acc * b % m else acc)

/-- Modular exponentiation `b ^ e % m` (for `m > 1`). -/
def powMod (b e m : Nat) : Nat := powModAux 300 (b % m) e m (1 % m)

/-- Modular inverse in the secp256k1 field, by Fermat's little theorem. -/
def fInv (a : Nat) : Nat := powMod a (secpP - 2) secpP

/-- Field subtraction. -/
def fSub (a b : Nat) : Nat := (a + secpP - b % secpP) % secpP

/-- A secp256k1 point in Jacobian coordinates; the point at infinity is
represented by `z = 0`. -/
structure JPt where
  x : Nat
  y : Nat
  z : Nat
deriving Repr, DecidableEq

/-- The point at infinity. -/
def jInf : JPt := ⟨1, 1, 0⟩

/-- Jacobian point doubling on secp256k1 (curve `a = 0`). -/
def jDouble (P : JPt) : JPt :=
  if P.z = 0 ∨ P.y = 0 then jInf
  else
    let ysq := P.y * P.y % secpP
    let s := 4 * P.x * ysq % secpP
    let m := 3 * P.x * P.x % secpP
    let x3 := fSub (m * m % secpP) (2 * s)
    let y3 := fSub (m * fSub s x3 % secpP) (8 * ysq * ysq % secpP)
    let z3 := 2 * P.y * P.z % secpP
    ⟨x3, y3, z3⟩

/-- Jacobian point addition on secp256k1. -/
def jAdd (P Q : JPt) : JPt :=
  if P.z = 0 then Q
  else if Q.z = 0 then P
  else
    let z1sq := P.z * P.z % secpP
    let z2sq := Q.z * Q.z % secpP
    let u1 := P.x * z2sq % secpP
    let u2 := Q.x * z1sq % secpP
    let s1 := P.y * (z2sq * Q.z % secpP) % secpP
    let s2 := Q.y * (z1sq * P.z % secpP) % secpP
    if u1 = u2 then
      if s1 ≠ s2 then jInf else jDouble P
    else
      let hh := fSub u2 u1
      let r := fSub s2 s1
      let h2 := hh * hh % secpP
      let h3 := h2 * hh % secpP
      let u1h2 := u1 * h2 % secpP
      let x3 := fSub (fSub (r * r % secpP) h3) (2 * u1h2)
      let y3 := fSub (r * fSub u1h2 x3 % secpP) (s1 * h3 % secpP)
      let z3 := hh * (P.z * Q.z % secpP) % secpP
      ⟨x3, y3, z3⟩

/-- An affine secp256k1 point or the point at infinity. -/
inductive Pt where
  /-- The point at infinity (group identity). -/
  | inf : Pt
  /-- An affine point. -/
  | aff : Nat → Nat → Pt
deriving Repr, DecidableEq

/-- Convert a Jacobian point to affine coordinates. -/
def jToAff (P : JPt) : Pt :=
  if P.z = 0 then .inf
  else
    let zi := fInv P.z
    let zi2 := zi * zi % secpP
    .aff (P.x * zi2 % secpP) (P.y * (zi2 * zi % secpP) % secpP)

/-- Lift an affine point to Jacobian coordinates. -/
def affToJ : Pt → JPt
  | .inf => jInf
  | .aff x y => ⟨x, y, 1⟩

/-- Fuel-based double-and-add scalar multiplication (least-significant bit
first). -/
def jMulAux : Nat → Nat → JPt → JPt → JPt
  | 0, _, _, acc => acc
  | fuel + 1, k, base, acc =>
    if k = 0 then acc
    else jMulAux fuel (k / 2) (jDouble base)
      (if k % 2 = 1 then jAdd acc base else acc)

/-- Scalar multiplication `k · P` on secp256k1, in affine form. -/
def ptMul (k : Nat) (P : Pt) : Pt :=
  jToAff (jMulAux 300 k (affToJ P) jInf)

/-- Point addition on secp256k1, in affine form. -/
def ptAdd (P Q : Pt) : Pt := jToAff (jAdd (affToJ P) (affToJ Q))

/-- The secp256k1 base point. -/
def ptG : Pt := .aff secpGx secpGy

/-- Compressed 33-byte SEC serialization of a point
(`btcec.PublicKey.SerializeCompressed`); the point at infinity never
arises from valid inputs and is given an all-zero placeholder. -/
def serCompressed : Pt → List Nat
  | .inf => List.replicate 33 0
  | .aff x y => (if y % 2 = 0 then 0x02 else 0x03) :: natToBEPad 32 x

/-- Uncompressed 65-byte SEC serialization of a point
(`btcec.PublicKey.SerializeUncompressed`). -/
def serUncompressed : Pt → List Nat
  | .inf => List.replicate 65 0
  | .aff x y => 0x04 :: (natToBEPad 32 x ++ natToBEPad 32 y)

/-- Errors of `btcec.ParsePubKey`, following the messages surfaced in the
repository's tests. -/
inductive PubKeyErr where
  /-- Key length other than 33 or 65 bytes. -/
  | invalidLength : Nat → PubKeyErr
  /-- Unknown format magic byte. -/
  | invalidFormat : Nat → PubKeyErr
  /-- The X coordinate is not below the field prime. -/
  | xTooBig : PubKeyErr
  /-- The Y coordinate is not below the field prime. -/
  | yTooBig : PubKeyErr
  /-- Decompression failed: the candidate root does not square back. -/
  | invalidSquareRoot : PubKeyErr
  /-- The point does not satisfy the curve equation. -/
  | notOnCurve : PubKeyErr
  /-- Parity bit of a hybrid key disagrees with the Y coordinate. -/
  | invalidParity : PubKeyErr
deriving Repr, DecidableEq

/-- Right-hand side of the curve equation, `x ^ 3 + 7`. -/
def curveRHS (x : Nat) : Nat := (x * x % secpP * x + 7) % secpP

/-- Decompress an x-coordinate and parity bit into a point, as
`btcec.decompressPoint`: the candidate root is `rhs ^ ((p + 1) / 4)` and is
rejected when it does not square back to `rhs`. -/
def decompressY (x : Nat) (odd : Bool) : Except PubKeyErr Nat :=
  let rhs := curveRHS x
  let y := powMod rhs ((secpP + 1) / 4) secpP
  if y * y % secpP ≠ rhs then .error .invalidSquareRoot
  else .ok (if (y % 2 = 1) = odd then y else secpP - y)

/-- Parse a SEC-serialized public key (`btcec.ParsePubKey`): accepts
compressed (33-byte, magic `02`/`03`) and uncompressed (65-byte, magic
`04`) forms, validating field membership and the curve equation. -/
def parsePubKey (bs : List Nat) : Except PubKeyErr Pt :=
  if bs.length = 33 then
    let format := bs.headD 0
    if format ≠ 0x02 ∧ format ≠ 0x03 then .error (.invalidFormat format)
    else
      let x := beToNat (bs.drop 1)
      if x ≥ secpP then .error .xTooBig
      else do
        let y ← decompressY x (format = 0x03)
        pure (.aff x y)
  else if bs.length = 65 then
    let format := bs.headD 0
    if format ≠ 0x04 ∧ format ≠ 0x06 ∧ format ≠ 0x07 then
      .error (.invalidFormat format)
    else
      let x := beToNat ((bs.drop 1).take 32)
      let y := beToNat (bs.drop 33)
      if format ≠ 0x04 ∧ ((y % 2 = 1) ≠ (format = 0x07)) then .error .invalidParity
      else if x ≥ secpP then .error .xTooBig
      else if y ≥ secpP then .error .yTooBig
      else if y * y % secpP ≠ curveRHS x then .error .notOnCurve
      else .ok (.aff x y)
  else .error (.invalidLength bs.length)

/-! ## Chain parameters (`pkg/chaincfg`, `pkg/litecoin`)

The five networks reachable through `grpc/adapters.go`: Bitcoin mainnet,
testnet3 and regtest (aliases of the upstream btcd tables), Litecoin
mainnet and Bitcoin Cash mainnet (clones of the Bitcoin mainnet table with
overridden magics, as constructed in the two `init` functions). -/

/-- The chain-parameter fields consumed by the engine. -/
structure ChainParams where
  /-- First byte of Base58Check P2PKH addresses. -/
  pubKeyHashAddrID : Nat
  /-- First byte of Base58Check P2SH addresses. -/
  scriptHashAddrID : Nat
  /-- Human-readable part of Bech32 segwit addresses. -/
  bech32HRP : List Char
  /-- BIP32 extended public key version bytes. -/
  hdPublicKeyID : List Nat
  /-- BIP32 extended private key version bytes. -/
  hdPrivateKeyID : List Nat
deriving Repr, DecidableEq

/-- Bitcoin mainnet parameters (`chaincfg.MainNetParams`). -/
def mainNetParams : ChainParams :=
  ⟨0x00, 0x05, ['b', 'c'], [0x04, 0x88, 0xb2, 0x1e], [0x04, 0x88, 0xad, 0xe4]⟩

/-- Bitcoin testnet3 parameters (`chaincfg.TestNet3Params`). -/
def testNet3Params : ChainParams :=
  ⟨0x6f, 0xc4, ['t', 'b'], [0x04, 0x35, 0x87, 0xcf], [0x04, 0x35, 0x83, 0x94]⟩

/-- Bitcoin regression-test parameters (`chaincfg.RegressionNetParams`). -/
def regressionNetParams : ChainParams :=
  ⟨0x6f, 0xc4, ['b', 'c', 'r', 't'], [0x04, 0x35, 0x87, 0xcf],
   [0x04, 0x35, 0x83, 0x94]⟩

/-- Litecoin mainnet parameters (`pkg/litecoin` `init`). -/
def litecoinMainNetParams : ChainParams :=
  ⟨0x30, 0x32, ['l', 't', 'c'], [0x04, 0x88, 0xb2, 0x1e],
   [0x04, 0x88, 0xad, 0xe4]⟩

/-- Bitcoin Cash mainnet parameters (`pkg/chaincfg` `init`). -/
def bitcoinCashMainNetParams : ChainParams :=
  ⟨0x00, 0x05, ['b', 'i', 't', 'c', 'o', 'i', 'n', 'c', 'a', 's', 'h'],
   [0x04, 0x88, 0xb2, 0x1e], [0x04, 0x88, 0xad, 0xe4]⟩

/-- The registry of networks reachable through `grpc/adapters.go`. -/
def supportedParams : List ChainParams :=
  [mainNetParams, testNet3Params, regressionNetParams,
   litecoinMainNetParams, bitcoinCashMainNetParams]

/-! ## BIP32 extended keys (`btcutil/hdkeychain`, used by `hd.go`)

The `hdkeychain` library itself is not vendored in the repository, so its
key model is embedded here following BIP32 and the specification's §4.2
description of `parse_extended_key` / `derive_child`.  A public extended
key stores its parsed curve point (the library stores the serialized bytes
and re-parses them; parsing a compressed serialization of a valid point
always succeeds, so both state representations coincide). -/

/-- The BIP32 hardened-derivation threshold, `hdkeychain.HardenedKeyStart`. -/
def hardenedKeyStart : Nat := 0x80000000

/-- Key material of an extended key. -/
inductive KeyMat where
  /-- A private scalar. -/
  | priv : Nat → KeyMat
  /-- A public curve point. -/
  | pub : Pt → KeyMat
deriving Repr, DecidableEq

/-- A BIP32 extended key. -/
structure XKey where
  /-- Version bytes (4), carried over unchanged by derivation. -/
  version : List Nat
  /-- Depth in the hierarchy (serialized modulo 256). -/
  depth : Nat
  /-- Parent fingerprint (4 bytes). -/
  parentFP : List Nat
  /-- Child number (serialized as a big-endian 32-bit word). -/
  childNum : Nat
  /-- Chain code (32 bytes). -/
  chainCode : List Nat
  /-- Private scalar or public point. -/
  key : KeyMat
deriving Repr, DecidableEq

/-- Whether the key holds private material. -/
def XKey.isPrivate (k : XKey) : Bool :=
  match k.key with
  | .priv _ => true
  | .pub _ => false

/-- The public curve point of an extended key
(`hdkeychain.ExtendedKey.ECPubKey`). -/
def XKey.pubPt (k : XKey) : Pt :=
  match k.key with
  | .priv d => ptMul d ptG
  | .pub P => P

/-- The 33-byte key-data field of the 78-byte serialization: a zero byte
plus the 32-byte scalar for private keys, or the compressed point for
public keys. -/
def XKey.keyData (k : XKey) : List Nat :=
  match k.key with
  | .priv d => 0 :: natToBEPad 32 d
  | .pub P => serCompressed P

/-- The 78-byte payload of the Base58Check serialization. -/
def XKey.payload (k : XKey) : List Nat :=
  k.version ++ [k.depth % 256] ++ k.parentFP ++ be32 (k.childNum % 2 ^ 32) ++
    k.chainCode ++ k.keyData

/-- Serialize an extended key to its Base58Check string
(`hdkeychain.ExtendedKey.String`). -/
def XKey.toString (k : XKey) : String :=
  ⟨b58CheckEncodeRaw k.payload⟩

/-- Errors of the hierarchical-deriver operations. -/
inductive HdErr where
  /-- Decoded serialization is not 82 bytes (`ErrInvalidKeyLen`); also
  produced for strings with characters outside the Base58 alphabet, which
  the library's Base58 decoder maps to an empty byte string. -/
  | invalidKeyLen : HdErr
  /-- Bad Base58Check checksum (`ErrBadChecksum`). -/
  | badChecksum : HdErr
  /-- Private key material outside `[1, N - 1]` (`ErrUnusableSeed`). -/
  | unusableSeed : HdErr
  /-- Public key material that does not parse as a curve point. -/
  | badPublicKey : PubKeyErr → HdErr
  /-- A hardened child was requested of a public-only key
  (`ErrDeriveHardFromPublic`, the specification's
  `CannotDeriveHardenedFromPublic`). -/
  | deriveHardFromPublic : HdErr
deriving Repr, DecidableEq

/-- Parse an extended key from its Base58Check string
(`hdkeychain.NewKeyFromString`): Base58-decode, check the 82-byte length
and 4-byte double-SHA256 checksum, split the 78-byte payload into its
fields, and validate the key material (scalar range for private keys, a
curve-point parse for public keys, privateness keyed on a zero leading
key-data byte). -/
def newKeyFromString (s : String) : Except HdErr XKey :=
  let decoded := (b58Decode (strNats s)).getD []
  if decoded.length ≠ 82 then .error .invalidKeyLen
  else
    let payload := decoded.take 78
    let cksum := decoded.drop 78
    if cksum ≠ (doubleSHA256 payload).take 4 then .error .badChecksum
    else
      let version := payload.take 4
      let depth := payload.getD 4 0
      let parentFP := (payload.drop 5).take 4
      let childNum := beToNat ((payload.drop 9).take 4)
      let chainCode := (payload.drop 13).take 32
      let keyData := payload.drop 45
      if keyData.headD 0 = 0 then
        let d := beToNat keyData.tail
        if d = 0 ∨ d ≥ secpN then .error .unusableSeed
        else .ok ⟨version, depth, parentFP, childNum, chainCode, .priv d⟩
      else
        match parsePubKey keyData with
        | .error e => .error (.badPublicKey e)
        | .ok P => .ok ⟨version, depth, parentFP, childNum, chainCode, .pub P⟩

/-- Modelled from the spec: one BIP32 child-derivation step,
`hdkeychain.ExtendedKey.Derive` / `Child`, whose library source is not
part of the repository.  Following §4.2 of the specification: a hardened
index on a public-only parent fails with `CannotDeriveHardenedFromPublic`;
otherwise HMAC-SHA512 over the parent chain code and the serialized parent
key plus index is split into a 32-byte scalar offset and the new chain
code, and the offset is combined with the parent key — modular scalar
addition for private parents, point addition of `offset · G` for public
parents.  Depth increments, the parent fingerprint is the leading 4 bytes
of HASH160 of the parent's compressed public key, and the child number is
the index. -/
def childKey (k : XKey) (i : Nat) : Except HdErr XKey :=
  let parentPub := serCompressed k.pubPt
  let fp := (hash160 parentPub).take 4
  match k.key with
  | .pub P =>
    if i ≥ hardenedKeyStart then .error .deriveHardFromPublic
    else
      let big := hmacSHA512 k.chainCode (parentPub ++ be32 i)
      let il := beToNat (big.take 32)
      let child := ptAdd (ptMul il ptG) P
      .ok ⟨k.version, k.depth + 1, fp, i, big.drop 32, .pub child⟩
  | .priv d =>
    let data :=
      if i ≥ hardenedKeyStart then (0 :: natToBEPad 32 d) ++ be32 (i % 2 ^ 32)
      else parentPub ++ be32 i
    let big := hmacSHA512 k.chainCode data
    let il := beToNat (big.take 32)
    .ok ⟨k.version, k.depth + 1, fp, i, big.drop 32, .priv ((il + d) % secpN)⟩

/-- The response record of `DeriveExtendedKey` (`PublicKeyMaterial` in
`hd.go`). -/
structure PublicKeyMaterial where
  /-- Derived key as a Base58Check string. -/
  extendedKey : String
  /-- 33-byte compressed public key of the derived key. -/
  publicKey : List Nat
  /-- 32-byte chain code of the derived key. -/
  chainCode : List Nat
deriving Repr, DecidableEq

/-- Derive a child extended key along a path, short-circuiting on the
first failure (the loop of `Service.DeriveExtendedKey`). -/
def derivePath (k : XKey) : List Nat → Except HdErr XKey
  | [] => .ok k
  | i :: rest =>
    match childKey k i with
    | .error e => .error e
    | .ok kc => derivePath kc rest

/-- `Service.DeriveExtendedKey` (`pkg/bitcoin/hd.go` / `core/hd.go`):
parse the extended key, derive each level of the path in order, and
return the serialized derived key, its compressed public key and its
chain code. -/
def deriveExtendedKey (extendedKey : String) (derivation : List Nat) :
    Except HdErr PublicKeyMaterial := do
  let k0 ← newKeyFromString extendedKey
  let kd ← derivePath k0 derivation
  pure ⟨kd.toString, serCompressed kd.pubPt, kd.chainCode⟩

/-- `Service.GetAccountExtendedKey` (`core/hd.go`): build a synthetic
depth-3 extended public key from raw public-key material, substituting the
HASH160 fingerprint of the child key itself for the unavailable parent
fingerprint, and serialize it. -/
def getAccountExtendedKey (publicKey chainCode : List Nat)
    (accountIndex : Nat) (params : ChainParams) : Except PubKeyErr String := do
  let P ← parsePubKey publicKey
  let ser := serCompressed P
  let childNum := (accountIndex + hardenedKeyStart) % 2 ^ 32
  let parentFP := (hash160 ser).take 4
  pure (XKey.toString
    ⟨params.hdPublicKeyID, 3, parentFP, childNum, chainCode, .pub P⟩)

/-! ## Bech32 and segwit addresses (BIP173, `btcutil/bech32`) -/

/-- Code points of the Bech32 data-character set
`qpzry9x8gf2tvdw0s3jn54khce6mua7l`. -/
def bechNats : List Nat :=
  [113, 112, 122, 114, 121, 57, 120, 56, 103, 102, 50, 116, 118, 100, 119, 48,
   115, 51, 106, 110, 53, 52, 107, 104, 99, 101, 54, 109, 117, 97, 55, 108]

/-- Character of one Bech32 digit value. -/
def bechChar (d : Nat) : Char :=
  Char.ofNat (bechNats.getD d 63)

/-- Value of one Bech32 data character (as a code point), or `none`. -/
def bechVal (c : Nat) : Option Nat :=
  bechNats.indexOf? c

/-- Values of a code-point list under the Bech32 charset. -/
def bechVals : List Nat → Option (List Nat)
  | [] => some []
  | c :: rest => do
    let v ← bechVal c
    let tl ← bechVals rest
    pure (v :: tl)

/-- The five Bech32 checksum generator constants. -/
def bechGen : List Nat :=
  [0x3b6a57b2, 0x26508e6d, 0x1ea119fa, 0x3d4233dd, 0x2a1462b3]

/-- One step of the Bech32 checksum polymod. -/
def polymodStep (chk v : Nat) : Nat :=
  let top := chk >>> 25
  ((chk &&& 0x1ffffff) <<< 5) ^^^ v ^^^
    (if top &&& 1 ≠ 0 then 0x3b6a57b2 else 0) ^^^
    (if top &&& 2 ≠ 0 then 0x26508e6d else 0) ^^^
    (if top &&& 4 ≠ 0 then 0x1ea119fa else 0) ^^^
    (if top &&& 8 ≠ 0 then 0x3d4233dd else 0) ^^^
    (if top &&& 16 ≠ 0 then 0x2a1462b3 else 0)

/-- The Bech32 checksum polymod of a value sequence, starting from 1. -/
def polymod (vs : List Nat) : Nat := vs.foldl polymodStep 1

/-- Expand a human-readable part for checksum computation. -/
def hrpExpand (hrp : List Nat) : List Nat :=
  hrp.map (· >>> 5) ++ [0] ++ hrp.map (· &&& 31)

/-- The six 5-bit checksum values appended to a Bech32 string. -/
def bechChecksum (hrp data : List Nat) : List Nat :=
  let pm := polymod (hrpExpand hrp ++ data ++ [0, 0, 0, 0, 0, 0]) ^^^ 1
  (List.range 6).map (fun i => (pm >>> (5 * (5 - i))) &&& 31)

/-- Bech32-encode a human-readable part and 5-bit data values
(`bech32.Encode`): `hrp`, the separator `1`, then data and checksum
characters. -/
def bechEncode (hrp data : List Nat) : List Char :=
  hrp.map Char.ofNat ++ '1' :: (data ++ bechChecksum hrp data).map bechChar

/-- Whether a code point is an ASCII uppercase letter. -/
def isUpperN (c : Nat) : Bool := 65 ≤ c ∧ c ≤ 90

/-- Whether a code point is an ASCII lowercase letter. -/
def isLowerN (c : Nat) : Bool := 97 ≤ c ∧ c ≤ 122

/-- Lowercase an ASCII code point. -/
def toLowerN (c : Nat) : Nat := if isUpperN c then c + 32 else c

/-- Index of the last occurrence of `x`, or `none`
(`strings.LastIndexByte`). -/
def lastIndexOf (x : Nat) (cs : List Nat) : Option Nat :=
  (cs.reverse.indexOf? x).map (fun j => cs.length - 1 - j)

/-- Errors produced while decoding a Bech32 string or segwit address. -/
inductive BechErr where
  /-- Mixed upper- and lowercase characters. -/
  | mixedCase : BechErr
  /-- Separator `1` missing or at an invalid position. -/
  | invalidSeparator : BechErr
  /-- A data character outside the charset. -/
  | badChar : BechErr
  /-- Checksum mismatch, with the expected and actual checksum strings. -/
  | badChecksum : String → String → BechErr
  /-- The human-readable part does not match the network. -/
  | mismatchedHrp : List Nat → BechErr
  /-- Bad witness version, program padding, or program length. -/
  | invalidProgram : BechErr
deriving Repr, DecidableEq

/-- Regroup 8-bit bytes into 5-bit values, left-aligned and zero-padded
(the `convertbits(…, 8, 5, true)` step of segwit address encoding,
expressed through the value of the byte string). -/
def toB32 (bs : List Nat) : List Nat :=
  let total := 8 * bs.length
  let groups := (total + 4) / 5
  natToBasePad 32 groups (beToNat bs <<< (5 * groups - total))

/-- Regroup 5-bit values into 8-bit bytes, rejecting excess or nonzero
padding (the strict `convertbits(…, 5, 8, false)` step of segwit address
decoding). -/
def fromB32 (ds : List Nat) : Option (List Nat) :=
  let total := 5 * ds.length
  let bytes := total / 8
  let pad := total - 8 * bytes
  if 5 ≤ pad then none
  else
    let v := baseToNat 32 ds
    if v % (1 <<< pad) ≠ 0 then none
    else some (natToBEPad bytes (v >>> pad))

/-- Bech32-decode a code-point list (`bech32.Decode`): reject mixed case,
lowercase, split at the last separator `1`, map data characters to values
and verify the checksum, reporting expected-versus-actual checksum strings
on a mismatch. -/
def bechDecode (cs : List Nat) : Except BechErr (List Nat × List Nat) :=
  if (cs.any isUpperN ∧ cs.any isLowerN) then .error .mixedCase
  else
    let low := cs.map toLowerN
    match lastIndexOf 49 low with
    | none => .error .invalidSeparator
    | some one =>
      if one < 1 ∨ one + 7 > low.length then .error .invalidSeparator
      else
        let hrp := low.take one
        match bechVals (low.drop (one + 1)) with
        | none => .error .badChar
        | some vals =>
          if polymod (hrpExpand hrp ++ vals) ≠ 1 then
            .error (.badChecksum
              ⟨(bechChecksum hrp (vals.take (vals.length - 6))).map bechChar⟩
              ⟨(vals.drop (vals.length - 6)).map bechChar⟩)
          else .ok (hrp, vals.take (vals.length - 6))

/-- Decode a segwit address against an expected human-readable part:
Bech32-decode, match the HRP, and convert the witness version and
program. -/
def segwitDecode (expectHrp cs : List Nat) :
    Except BechErr (Nat × List Nat) := do
  let (hrp, data) ← bechDecode cs
  if hrp ≠ expectHrp then .error (.mismatchedHrp hrp)
  else
    match data with
    | [] => .error .invalidProgram
    | ver :: rest =>
      if ver > 16 then .error .invalidProgram
      else
        match fromB32 rest with
        | none => .error .invalidProgram
        | some prog =>
          if prog.length < 2 ∨ prog.length > 40 then .error .invalidProgram
          else if ver = 0 ∧ prog.length ≠ 20 ∧ prog.length ≠ 32 then
            .error .invalidProgram
          else .ok (ver, prog)

/-- Encode a segwit address (`btcutil.AddressWitnessPubKeyHash` /
`bech32.Encode`): witness version 0 and the regrouped program. -/
def segwitEncode (hrp : List Nat) (ver : Nat) (prog : List Nat) : String :=
  ⟨bechEncode hrp (ver :: toB32 prog)⟩

/-! ## Address codec (`pkg/bitcoin/address.go`) -/

/-- The Go `AddressEncoding` enumeration is a plain integer; unknown
values must be rejected. -/
abbrev AddressEncoding := Nat

/-- The P2PKH address encoding scheme (`Legacy`). -/
def legacyEnc : AddressEncoding := 0

/-- The P2WPKH-in-P2SH address encoding scheme (`WrappedSegwit`). -/
def wrappedSegwitEnc : AddressEncoding := 1

/-- The P2WPKH address encoding scheme (`NativeSegwit`). -/
def nativeSegwitEnc : AddressEncoding := 2

/-- Errors of `EncodeAddress`. -/
inductive EncodeErr where
  /-- The public key failed to parse (`btcec.ParsePubKey`). -/
  | badPublicKey : PubKeyErr → EncodeErr
  /-- Unknown address-encoding tag (`ErrUnknownAddressType`). -/
  | unknownAddressType : EncodeErr
deriving Repr, DecidableEq

/-- The P2SH redeem script wrapping a P2WPKH witness program:
`OP_0 <20-byte key hash>` (`txscript.PayToAddrScript` on a
witness-pubkey-hash address). -/
def p2wpkhScript (keyHash : List Nat) : List Nat :=
  0x00 :: 0x14 :: keyHash

/-- `Service.EncodeAddress` (`pkg/bitcoin/address.go`): parse and validate
the public key, hash its compressed serialization, and encode under the
requested scheme — Base58Check with the pubkey-hash version for `Legacy`,
Base58Check of the HASH160 of the P2WPKH redeem script with the
script-hash version for `WrappedSegwit`, and a version-0 Bech32 segwit
address for `NativeSegwit`. -/
def encodeAddress (publicKey : List Nat) (encoding : AddressEncoding)
    (params : ChainParams) : Except EncodeErr String :=
  match parsePubKey publicKey with
  | .error e => .error (.badPublicKey e)
  | .ok P =>
    let publicKeyHash := hash160 (serCompressed P)
    if encoding = legacyEnc then
      .ok ⟨b58CheckEncode params.pubKeyHashAddrID publicKeyHash⟩
    else if encoding = wrappedSegwitEnc then
      .ok ⟨b58CheckEncode params.scriptHashAddrID
        (hash160 (p2wpkhScript publicKeyHash))⟩
    else if encoding = nativeSegwitEnc then
      .ok (segwitEncode (params.bech32HRP.map Char.toNat) 0 publicKeyHash)
    else .error .unknownAddressType

/-- A decoded address: the three forms the engine round-trips. -/
inductive DecodedAddr where
  /-- Pay-to-pubkey-hash, carrying the 20-byte hash. -/
  | p2pkh : List Nat → DecodedAddr
  /-- Pay-to-script-hash, carrying the 20-byte script hash. -/
  | p2sh : List Nat → DecodedAddr
  /-- Version-0 pay-to-witness-pubkey-hash, carrying the 20-byte hash. -/
  | p2wpkh : List Nat → DecodedAddr
deriving Repr, DecidableEq

/-- Errors of address decoding, mirroring the defect classes surfaced by
`btcutil.DecodeAddress`. -/
inductive DecodeErr where
  /-- Base58Check failure for a Base58-shaped address. -/
  | base58 : B58Err → DecodeErr
  /-- Bech32 failure for a segwit-shaped address, including mixed case and
  expected-versus-actual checksums. -/
  | bech32 : BechErr → DecodeErr
  /-- A Base58Check payload of a length other than 20 bytes. -/
  | wrongLength : Nat → DecodeErr
  /-- A version byte matching neither address identifier of the network. -/
  | unknownVersion : Nat → DecodeErr
  /-- A segwit version/program combination not representable here. -/
  | unsupportedWitness : DecodeErr
deriving Repr, DecidableEq

/-- Modelled from the spec: the encoding-applicability test of
`btcutil.DecodeAddress` (library source not part of the repository) — an
address counts as Bech32-shaped when its prefix up to the last `1`
separator is the network's HRP. -/
def looksBech32 (cs hrp : List Nat) : Bool :=
  match lastIndexOf 49 cs with
  | some one => 1 < one ∧ cs.take one = hrp
  | none => false

/-- Modelled from the spec: `btcutil.DecodeAddress`, whose library source
is not part of the repository.  Following §4.3 of the specification, the
address is decoded using the applicable encodings — Bech32 for
witness-shaped addresses, Base58Check otherwise — matched against the
network's version bytes and HRP, with decode errors describing the
specific defect (bad checksum with expected-versus-actual values,
mixed-case bech32, wrong length, unknown prefix). -/
def decodeAddress (cs : List Nat) (params : ChainParams) :
    Except DecodeErr DecodedAddr :=
  if looksBech32 cs (params.bech32HRP.map Char.toNat) then
    match segwitDecode (params.bech32HRP.map Char.toNat) cs with
    | .ok (ver, prog) =>
      if ver = 0 ∧ prog.length = 20 then .ok (.p2wpkh prog)
      else .error .unsupportedWitness
    | .error eb => .error (.bech32 eb)
  else
    match b58CheckDecode cs with
    | .ok (version, payload) =>
      if payload.length ≠ 20 then .error (.wrongLength payload.length)
      else if version = params.pubKeyHashAddrID then .ok (.p2pkh payload)
      else if version = params.scriptHashAddrID then .ok (.p2sh payload)
      else .error (.unknownVersion version)
    | .error e58 => .error (.base58 e58)

/-- Canonical string form of a decoded address
(`btcutil.Address.EncodeAddress`). -/
def encodeDecoded (a : DecodedAddr) (params : ChainParams) : String :=
  match a with
  | .p2pkh h => ⟨b58CheckEncode params.pubKeyHashAddrID h⟩
  | .p2sh h => ⟨b58CheckEncode params.scriptHashAddrID h⟩
  | .p2wpkh h => segwitEncode (params.bech32HRP.map Char.toNat) 0 h

/-- `Service.ValidateAddress` (`pkg/bitcoin/address.go`): decode the
address against the chain parameters and return its normalized
re-encoding, or the decode error. -/
def validateAddress (address : String) (params : ChainParams) :
    Except DecodeErr String :=
  match decodeAddress (strNats address) params with
  | .error e => .error e
  | .ok addr => .ok (encodeDecoded addr params)

/-! ## Transactions (`core/tx.go`, btcd `wire.MsgTx`) -/

/-- The default transaction version, `wire.TxVersion`. -/
def txVersion : Nat := 1

/-- A previous-output reference (`wire.OutPoint`); the hash is stored in
internal (little-endian display-reversed) byte order. -/
structure OutPoint where
  /-- 32-byte transaction hash, internal byte order. -/
  hash : List Nat
  /-- Output index. -/
  index : Nat
deriving Repr, DecidableEq

/-- A transaction input (`wire.TxIn`). -/
structure TxIn where
  /-- The outpoint being spent. -/
  previousOutPoint : OutPoint
  /-- The scriptSig. -/
  signatureScript : List Nat
  /-- The witness stack: a list of stack items. -/
  witness : List (List Nat)
  /-- The sequence number. -/
  sequence : Nat
deriving Repr, DecidableEq

/-- A transaction output (`wire.TxOut`). -/
structure TxOut where
  /-- Value in satoshis (as the 64-bit word serialized on the wire). -/
  value : Nat
  /-- The output script. -/
  pkScript : List Nat
deriving Repr, DecidableEq

/-- A wire-format transaction (`wire.MsgTx`). -/
structure MsgTx where
  /-- Version (serialized as a 32-bit word). -/
  version : Nat
  /-- Inputs. -/
  txIn : List TxIn
  /-- Outputs. -/
  txOut : List TxOut
  /-- Lock time. -/
  lockTime : Nat
deriving Repr, DecidableEq

/-- A freshly-initialized transaction, `wire.NewMsgTx`: the given version
and no inputs, outputs, or lock time. -/
def newMsgTx (version : Nat) : MsgTx := ⟨version, [], [], 0⟩

/-- Bitcoin variable-length integer serialization (`wire.WriteVarInt`). -/
def serVarInt (n : Nat) : List Nat :=
  if n < 0xfd then [n]
  else if n ≤ 0xffff then 0xfd :: [n &&& 255, (n >>> 8) &&& 255]
  else if n ≤ 0xffffffff then 0xfe :: le32 n
  else 0xff :: le64 n

/-- Serialized outpoint: 32-byte hash then little-endian index. -/
def serOutPoint (o : OutPoint) : List Nat :=
  o.hash ++ le32 (o.index % 2 ^ 32)

/-- Serialized input (without witness data). -/
def serTxIn (i : TxIn) : List Nat :=
  serOutPoint i.previousOutPoint ++
    serVarInt i.signatureScript.length ++ i.signatureScript ++
    le32 (i.sequence % 2 ^ 32)

/-- Serialized output. -/
def serTxOut (o : TxOut) : List Nat :=
  le64 (o.value % 2 ^ 64) ++ serVarInt o.pkScript.length ++ o.pkScript

/-- Serialized witness stack of one input. -/
def serWitness (w : List (List Nat)) : List Nat :=
  serVarInt w.length ++ (w.map (fun item => serVarInt item.length ++ item)).flatten

/-- Whether any input carries witness data (`wire.MsgTx.HasWitness`). -/
def hasWitness (tx : MsgTx) : Bool :=
  tx.txIn.any (fun i => i.witness ≠ [])

/-- The legacy (non-witness) serialization
(`wire.MsgTx.SerializeNoWitness`). -/
def serializeNoWitness (tx : MsgTx) : List Nat :=
  le32 (tx.version % 2 ^ 32) ++
    serVarInt tx.txIn.length ++ (tx.txIn.map serTxIn).flatten ++
    serVarInt tx.txOut.length ++ (tx.txOut.map serTxOut).flatten ++
    le32 (tx.lockTime % 2 ^ 32)

/-- The BIP144 witness serialization: marker `00`, flag `01`, base fields,
then one witness stack per input. -/
def serializeWitness (tx : MsgTx) : List Nat :=
  le32 (tx.version % 2 ^ 32) ++ [0x00, 0x01] ++
    serVarInt tx.txIn.length ++ (tx.txIn.map serTxIn).flatten ++
    serVarInt tx.txOut.length ++ (tx.txOut.map serTxOut).flatten ++
    (tx.txIn.map (fun i => serWitness i.witness)).flatten ++
    le32 (tx.lockTime % 2 ^ 32)

/-- `wire.MsgTx.Serialize`: witness encoding exactly when some input
carries witness data (the two layouts coincide otherwise). -/
def serialize (tx : MsgTx) : List Nat :=
  if hasWitness tx then serializeWitness tx else serializeNoWitness tx

/-- Display form of a 32-byte hash: byte-reversed lowercase hex
(`chainhash.Hash.String`). -/
def hashToStr (bs : List Nat) : String := hexEncode bs.reverse

/-- The transaction hash (`wire.MsgTx.TxHash`): double SHA-256 of the
legacy serialization. -/
def txHash (tx : MsgTx) : List Nat := doubleSHA256 (serializeNoWitness tx)

/-- The witness hash (`wire.MsgTx.WitnessHash`): double SHA-256 of the
full serialization when witness data is present, the transaction hash
otherwise. -/
def witnessHash (tx : MsgTx) : List Nat :=
  if hasWitness tx then doubleSHA256 (serializeWitness tx) else txHash tx

/-- The serialized-transaction triple returned to callers (`RawTx`):
hex, display hash, display witness hash. -/
structure RawTx where
  /-- Serialized transaction, hex encoded. -/
  hex : String
  /-- Display transaction hash. -/
  hash : String
  /-- Display witness hash. -/
  witnessHash : String
deriving Repr, DecidableEq

/-- `encodeMsgTx` (`core/tx.go`): serialize and bundle the hex string with
both display hashes. -/
def encodeMsgTx (tx : MsgTx) : RawTx :=
  ⟨hexEncode (serialize tx), hashToStr (txHash tx), hashToStr (witnessHash tx)⟩

/-- Per-input signing metadata (`core.SignatureMetadata`): the DER
signature, the signer's public key, and the input's address-encoding
tag. -/
structure SignatureMetadata where
  /-- DER-encoded signature bytes. -/
  derSig : List Nat
  /-- The signer's public key (a parsed curve point, as in
  `btcec.PublicKey`). -/
  pubKey : Pt
  /-- The address encoding of the input being completed. -/
  addrEncoding : AddressEncoding
deriving Repr, DecidableEq

/-- A canonical data push for the 22-byte P2WPKH redeem script
(`txscript.ScriptBuilder.AddData`: lengths up to 75 use a direct
`OP_DATA` opcode). -/
def pushData (bs : List Nat) : List Nat :=
  if bs.length = 0 then [0]
  else if bs.length ≤ 75 then bs.length :: bs
  else if bs.length ≤ 255 then 0x4c :: bs.length :: bs
  else 0x4d :: [bs.length &&& 255, (bs.length >>> 8) &&& 255] ++ bs

/-- The per-input state written by `Service.SignTransaction`: every input
receives the witness stack `[DER signature, compressed public key]`; a
`WrappedSegwit` input additionally receives a scriptSig holding a single
push of the P2WPKH redeem script, and every other input an empty
scriptSig. -/
def signInput (input : TxIn) (sig : SignatureMetadata) : TxIn :=
  let pubKeyData := serCompressed sig.pubKey
  let sigScript :=
    if sig.addrEncoding = wrappedSegwitEnc then
      pushData (p2wpkhScript (hash160 pubKeyData))
    else []
  { input with signatureScript := sigScript, witness := [sig.derSig, pubKeyData] }

/-- The transaction produced by `Service.SignTransaction` before
re-encoding: each input completed with its metadata, in order. -/
def signedMsgTx (msgTx : MsgTx) (signatures : List SignatureMetadata) : MsgTx :=
  { msgTx with txIn := List.zipWith signInput msgTx.txIn signatures }

/-- `Service.SignTransaction` (`core/tx.go`): requires one metadata entry
per input; attaches scriptSig and witness data to every input and encodes
the result. -/
def signTransaction (msgTx : MsgTx) (_params : ChainParams)
    (signatures : List SignatureMetadata) : Except String RawTx :=
  if msgTx.txIn.length ≠ signatures.length then
    .error "inputs length != signatures length"
  else .ok (encodeMsgTx (signedMsgTx msgTx signatures))

/-! ### Wire deserialization (`wire.MsgTx.Deserialize`) -/

/-- Value of little-endian bytes. -/
def leToNat (bs : List Nat) : Nat :=
  bs.foldr (fun b acc => acc * 256 + b) 0

/-- Take exactly `n` bytes off the front, or fail. -/
def readN (n : Nat) (bs : List Nat) : Option (List Nat × List Nat) :=
  if n ≤ bs.length then some (bs.take n, bs.drop n) else none

/-- Read a canonical Bitcoin varint (`wire.ReadVarInt`). -/
def readVarInt (bs : List Nat) : Option (Nat × List Nat) :=
  match bs with
  | [] => none
  | d :: rest =>
    if d < 0xfd then some (d, rest)
    else if d = 0xfd then do
      let (b, r) ← readN 2 rest
      let v := leToNat b
      if v < 0xfd then none else pure (v, r)
    else if d = 0xfe then do
      let (b, r) ← readN 4 rest
      let v := leToNat b
      if v < 0x10000 then none else pure (v, r)
    else do
      let (b, r) ← readN 8 rest
      let v := leToNat b
      if v < 0x100000000 then none else pure (v, r)

/-- Maximum message payload (`wire.MaxMessagePayload`), bounding script
lengths and element counts during deserialization. -/
def maxMessagePayload : Nat := 32 * 1024 * 1024

/-- Read a varint-prefixed byte string whose announced length must stay
within the caller's bound (`wire.readScript`); the caller sees a `nil`
script on any failure. -/
def readScript (maxAllowed : Nat) (bs : List Nat) :
    Option (List Nat × List Nat) := do
  let (n, r) ← readVarInt bs
  if n > maxAllowed then none else readN n r

/-- Maximum number of inputs a message can carry,
`wire.maxTxInPerMessage` (the payload bound over the 41-byte minimum
input payload, plus one). -/
def maxTxInPerMessage : Nat := maxMessagePayload / 41 + 1

/-- Maximum number of outputs a message can carry,
`wire.maxTxOutPerMessage` (the payload bound over the 9-byte minimum
output payload, plus one). -/
def maxTxOutPerMessage : Nat := maxMessagePayload / 9 + 1

/-- Maximum number of witness items on one input
(`wire.maxWitnessItemsPerInput`). -/
def maxWitnessItemsPerInput : Nat := 500000

/-- Maximum size of one witness item (`wire.maxWitnessItemSize`). -/
def maxWitnessItemSize : Nat := 11000

/-- A zero-valued `wire.TxIn`, as preallocated by `BtcDecode` before the
input data is read into it. -/
def zeroTxIn : TxIn := ⟨⟨List.replicate 32 0, 0⟩, [], [], 0⟩

/-- A zero-valued `wire.TxOut`, as preallocated by `BtcDecode`. -/
def zeroTxOut : TxOut := ⟨0, []⟩

/-- `wire.readTxIn` mutates the preallocated input field by field: the
outpoint hash (written byte by byte by `io.ReadFull`, so a short read
leaves a zero-padded prefix), then the outpoint index, the signature
script and the sequence.  `.inl` carries the parsed input with the
remaining bytes; `.inr` carries the state the input was left in by a
failure. -/
def readTxInInto (bs : List Nat) : (TxIn × List Nat) ⊕ TxIn :=
  if 32 ≤ bs.length then
    let hash := bs.take 32
    let r1 := bs.drop 32
    match readN 4 r1 with
    | none => .inr ⟨⟨hash, 0⟩, [], [], 0⟩
    | some (idxB, r2) =>
      match readScript maxMessagePayload r2 with
      | none => .inr ⟨⟨hash, leToNat idxB⟩, [], [], 0⟩
      | some (script, r3) =>
        match readN 4 r3 with
        | none => .inr ⟨⟨hash, leToNat idxB⟩, script, [], 0⟩
        | some (seqB, r4) =>
          .inl (⟨⟨hash, leToNat idxB⟩, script, [], leToNat seqB⟩, r4)
  else .inr ⟨⟨bs ++ List.replicate (32 - bs.length) 0, 0⟩, [], [], 0⟩

/-- The input loop of `BtcDecode`: the backing array
(`txIns := make([]TxIn, count)`, zero-valued inputs) and the pointer
slice `msg.TxIn` are preallocated at the full announced count and filled
in place, so a failure keeps the inputs decoded so far, the partially
read one, and the preallocated zero inputs never reached (their pointer
slots are still nil in Go; this value-level embedding renders them as
the zero-valued backing entries they would point to). -/
def readTxIns : Nat → List Nat → (List TxIn × List Nat) ⊕ List TxIn
  | 0, bs => .inl ([], bs)
  | c + 1, bs =>
    match readTxInInto bs with
    | .inr ti => .inr (ti :: List.replicate c zeroTxIn)
    | .inl (ti, r) =>
      match readTxIns c r with
      | .inr tis => .inr (ti :: tis)
      | .inl (tis, r2) => .inl (ti :: tis, r2)

/-- `wire.readTxOut` mutates the preallocated output: the value, then the
script. -/
def readTxOutInto (bs : List Nat) : (TxOut × List Nat) ⊕ TxOut :=
  match readN 8 bs with
  | none => .inr zeroTxOut
  | some (valB, r1) =>
    match readScript maxMessagePayload r1 with
    | none => .inr ⟨leToNat valB, []⟩
    | some (script, r2) => .inl (⟨leToNat valB, script⟩, r2)

/-- The output loop of `BtcDecode`, preallocated and filled in place
like the input loop, with unreached slots rendered as the zero-valued
backing entries. -/
def readTxOuts : Nat → List Nat → (List TxOut × List Nat) ⊕ List TxOut
  | 0, bs => .inl ([], bs)
  | c + 1, bs =>
    match readTxOutInto bs with
    | .inr to2 => .inr (to2 :: List.replicate c zeroTxOut)
    | .inl (to2, r) =>
      match readTxOuts c r with
      | .inr tos => .inr (to2 :: tos)
      | .inl (tos, r2) => .inl (to2 :: tos, r2)

/-- The witness-item loop for one input: the stack is allocated at the
announced count before any item is read, so a failure keeps `nil` items
in the slots never reached. -/
def readWitItems : Nat → List Nat →
    (List (List Nat) × List Nat) ⊕ List (List Nat)
  | 0, bs => .inl ([], bs)
  | c + 1, bs =>
    match readScript maxWitnessItemSize bs with
    | none => .inr (List.replicate (c + 1) [])
    | some (item, r) =>
      match readWitItems c r with
      | .inr ws => .inr (item :: ws)
      | .inl (ws, r2) => .inl (item :: ws, r2)

/-- One input's witness stack: the item count, its bound check, then the
preallocated items.  `.inr none` means the failure happened before the
stack was allocated, leaving the input's witness untouched. -/
def readWitStack (bs : List Nat) :
    (List (List Nat) × List Nat) ⊕ Option (List (List Nat)) :=
  match readVarInt bs with
  | none => .inr none
  | some (k, r) =>
    if k > maxWitnessItemsPerInput then .inr none
    else
      match readWitItems k r with
      | .inr ws => .inr (some ws)
      | .inl (ws, r2) => .inl (ws, r2)

/-- The witness loop of `BtcDecode`: each input's witness field is
assigned in place as its stack is read, so a failure keeps the stacks
assigned so far. -/
def readWitnesses : List TxIn → List Nat →
    (List TxIn × List Nat) ⊕ List TxIn
  | [], bs => .inl ([], bs)
  | ti :: rest, bs =>
    match readWitStack bs with
    | .inr none => .inr (ti :: rest)
    | .inr (some ws) => .inr ({ ti with witness := ws } :: rest)
    | .inl (ws, r) =>
      match readWitnesses rest r with
      | .inr tis => .inr ({ ti with witness := ws } :: tis)
      | .inl (tis, r2) => .inl ({ ti with witness := ws } :: tis, r2)

/-- `wire.MsgTx.BtcDecode` under witness encoding, as run by
`wire.MsgTx.Deserialize` (btcd v0.20.1): the receiver is mutated field
by field — the version right after its four bytes are read, an optional
`00 01` segwit marker, the preallocated input and output slices, the
per-input witness stacks, and last the lock time.  The returned pair is
the receiver's final state and whether decoding succeeded; a failure
leaves every field decoded so far in place, and trailing bytes are not
an error. -/
def btcDecode (msg : MsgTx) (bs : List Nat) : MsgTx × Bool :=
  match readN 4 bs with
  | none => (msg, false)
  | some (verB, r1) =>
    let m1 := { msg with version := leToNat verB }
    match readVarInt r1 with
    | none => (m1, false)
    | some (count0, r2) =>
      match
        (if count0 = 0 then
          match r2 with
          | [] => none
          | flag :: r3 =>
            if flag ≠ 0x01 then none
            else
              match readVarInt r3 with
              | none => none
              | some (c, r4) => some (true, c, r4)
        else some (false, count0, r2) :
          Option (Bool × Nat × List Nat)) with
      | none => (m1, false)
      | some (witMode, inCount, r5) =>
        if inCount > maxTxInPerMessage then (m1, false)
        else
          match readTxIns inCount r5 with
          | .inr tis => ({ m1 with txIn := tis }, false)
          | .inl (tis, r6) =>
            let m2 := { m1 with txIn := tis }
            match readVarInt r6 with
            | none => (m2, false)
            | some (outCount, r7) =>
              if outCount > maxTxOutPerMessage then (m2, false)
              else
                match readTxOuts outCount r7 with
                | .inr tos => ({ m2 with txOut := tos }, false)
                | .inl (tos, r8) =>
                  let m3 := { m2 with txOut := tos }
                  if witMode then
                    match readWitnesses m3.txIn r8 with
                    | .inr tis2 => ({ m3 with txIn := tis2 }, false)
                    | .inl (tis2, r9) =>
                      let m4 := { m3 with txIn := tis2 }
                      match readN 4 r9 with
                      | none => (m4, false)
                      | some (lockB, _) =>
                        ({ m4 with lockTime := leToNat lockB }, true)
                  else
                    match readN 4 r8 with
                    | none => (m3, false)
                    | some (lockB, _) =>
                      ({ m3 with lockTime := leToNat lockB }, true)

/-- `Service.DeserializeMsgTx` (`core/tx.go`): instantiate a fresh
transaction, hex-decode the raw string — failing only if the hex is
invalid — then deserialize into that transaction with the
deserialization error discarded, returning the receiver in whatever
state `Deserialize` left it. -/
def deserializeMsgTx (rawTx : RawTx) : Except String MsgTx :=
  match hexDecode rawTx.hex with
  | none => .error "failed to derialize raw tx"
  | some bs => .ok (btcDecode (newMsgTx txVersion) bs).1

/-! ## Transaction building with fee accounting (`core.CreateTransaction`)

Only the tests (`core/tx_test.go`) and the gRPC controller of
`core.Service.CreateTransaction` are part of the repository sources; the
builder itself is modelled from the specification (§4.4). -/

/-- An input to spend (`core.Input`): previous output hash (display hex),
index, optional prevout script, and its value. -/
structure CoreInput where
  /-- Previous transaction hash as displayed (reversed) hex. -/
  outputHash : String
  /-- Previous output index. -/
  outputIndex : Nat
  /-- Previous output script bytes. -/
  script : List Nat
  /-- Value of the spent output in satoshis. -/
  value : Nat
deriving Repr, DecidableEq

/-- A recipient (`core.Output`): destination address and satoshi value. -/
structure CoreOutput where
  /-- Destination address string. -/
  address : String
  /-- Value in satoshis. -/
  value : Nat
deriving Repr, DecidableEq

/-- The transaction-build request (`core.Tx`). -/
structure CoreTx where
  /-- Inputs to spend. -/
  inputs : List CoreInput
  /-- Recipients. -/
  outputs : List CoreOutput
  /-- Change address. -/
  changeAddress : String
  /-- Fee rate in satoshis per kilobyte. -/
  feeSatPerKb : Nat
  /-- Lock time. -/
  lockTime : Nat
deriving Repr, DecidableEq

/-- The build result (`core.RawTx` with its `NotEnoughUtxo` extra): the
serialized transaction, an optional insufficient-funds signal carrying
the exact shortfall, the change amount, and the total fees. -/
structure RawTxExtra where
  /-- The serialized transaction triple. -/
  rawTx : RawTx
  /-- Set exactly when the inputs cannot cover recipients plus fee;
  carries the missing amount in satoshis. -/
  notEnoughUtxo : Option Nat
  /-- Change paid back to the change address. -/
  change : Nat
  /-- Total fees at the given fee rate. -/
  totalFees : Nat
deriving Repr, DecidableEq

/-- The output script paying to a decoded address
(`txscript.PayToAddrScript`). -/
def payToAddrScript (a : DecodedAddr) : List Nat :=
  match a with
  | .p2pkh h => [0x76, 0xa9, 0x14] ++ h ++ [0x88, 0xac]
  | .p2sh h => [0xa9, 0x14] ++ h ++ [0x87]
  | .p2wpkh h => [0x00, 0x14] ++ h

/-- Parse a display-hex transaction hash into internal byte order
(`chainhash.NewHashFromStr`): at most 64 hex digits, zero-padded,
byte-reversed. -/
def hashFromStr (s : String) : Option (List Nat) :=
  if s.length > 64 then none
  else
    let padded := String.mk (List.replicate (64 - s.length) '0') ++ s
    (hexDecode padded).map List.reverse

/-- The unsigned wire transaction of a build request, with one extra
output appended (used to size and then to attach the change). -/
def coreMsgTx (tx : CoreTx) (outputScripts : List (List Nat))
    (extraOut : List TxOut) : MsgTx :=
  ⟨txVersion,
   tx.inputs.map (fun i =>
     ⟨⟨((hashFromStr i.outputHash).getD []), i.outputIndex⟩, i.script, [],
      0xffffffff⟩),
   List.zipWith (fun (o : CoreOutput) s => ⟨o.value, s⟩) tx.outputs
     outputScripts ++ extraOut,
   tx.lockTime⟩

/-- Fee for a serialized size at a satoshi-per-kilobyte rate
(`txrules.FeeForSerializeSize`). -/
def feeForSize (feeSatPerKb size : Nat) : Nat := feeSatPerKb * size / 1000

/-- The recipients' output scripts, each built through the address codec
(the per-recipient `DecodeAddress` / `PayToAddrScript` loop). -/
def coreOutputScripts (tx : CoreTx) (params : ChainParams) :
    Except DecodeErr (List (List Nat)) :=
  tx.outputs.mapM
    (fun o => (decodeAddress (strNats o.address) params).map payToAddrScript)

/-- Sum of the input values, in satoshis. -/
def coreInputTotal (tx : CoreTx) : Nat :=
  (tx.inputs.map (fun i => i.value)).sum

/-- Sum of the recipient values, in satoshis. -/
def coreOutputTotal (tx : CoreTx) : Nat :=
  (tx.outputs.map (fun o => o.value)).sum

/-- Modelled from the spec: `core.Service.CreateTransaction`, whose
implementation is not among the repository sources (only its tests in
`core/tx_test.go` and its gRPC caller are).  Following §4.4 of the
specification: resolve each input's outpoint, build each recipient's
output script through the address codec, size the transaction with a
change output attached using the witness-capable serialization, and take
the fee from the fee rate and that size; if the input values cannot cover
the recipient values plus the fee, fail deterministically with the exact
shortfall in satoshis in the `NotEnoughUtxo` signal; otherwise attach the
change output and encode. -/
def createTransactionCore (tx : CoreTx) (params : ChainParams) :
    Except DecodeErr RawTxExtra :=
  if tx.inputs.any (fun i => (hashFromStr i.outputHash).isNone) then
    .error (.wrongLength 0)
  else
    match coreOutputScripts tx params with
    | .error e => .error e
    | .ok outputScripts =>
      match decodeAddress (strNats tx.changeAddress) params with
      | .error e => .error e
      | .ok changeAddr =>
        let changeScript := payToAddrScript changeAddr
        let sized := coreMsgTx tx outputScripts [⟨0, changeScript⟩]
        let fee := feeForSize tx.feeSatPerKb (serializeWitness sized).length
        if coreInputTotal tx < coreOutputTotal tx + fee then
          .ok ⟨encodeMsgTx (coreMsgTx tx outputScripts []),
            some (coreOutputTotal tx + fee - coreInputTotal tx), 0, fee⟩
        else
          let change := coreInputTotal tx - coreOutputTotal tx - fee
          .ok ⟨encodeMsgTx (coreMsgTx tx outputScripts [⟨change, changeScript⟩]),
            none, change, fee⟩

/-! ## Helper lemmas -/

/-- `getD` through `zipWith`, for indices inside both lists. -/
theorem zipWith_getD {α β γ : Type} (f : α → β → γ) (as : List α)
    (bs : List β) (i : Nat) (da : α) (db : β) (dc : γ)
    (ha : i < as.length) (hb : i < bs.length) :
    (List.zipWith f as bs).getD i dc = f (as.getD i da) (bs.getD i db) := by
  induction as generalizing bs i with
  | nil => simp at ha
  | cons a as ih =>
    cases bs with
    | nil => simp at hb
    | cons b bs =>
      cases i with
      | zero => simp [List.getD]
      | succ n =>
        simpa [List.getD] using
          ih bs n (by simpa using ha) (by simpa using hb)

/-- A nonempty `zipWith` of signing keeps a nonempty input list. -/
theorem zipWith_length_of_eq {α β γ : Type} (f : α → β → γ) (as : List α)
    (bs : List β) (h : as.length = bs.length) :
    (List.zipWith f as bs).length = bs.length := by
  simp [List.length_zipWith, h]

/-! ## Claim theorems -/

/-- C10 (corrected): `DeserializeMsgTx` fails exactly when the input hex
string is not valid hexadecimal; for every hex-decodable input the wire
deserialization error is discarded and the function returns, with a nil
error, the receiver in the state `Deserialize` mutated it into — on a
failed parse a partially-decoded transaction, not in general the
freshly-initialized one. -/
theorem deserializeMsgTx_error_only_bad_hex (rawTx : RawTx) :
    ((∃ e, deserializeMsgTx rawTx = .error e) ↔ hexDecode rawTx.hex = none) ∧
    (∀ bs, hexDecode rawTx.hex = some bs →
      deserializeMsgTx rawTx = .ok (btcDecode (newMsgTx txVersion) bs).1) := by
  constructor
  · constructor
    · rintro ⟨e, he⟩
      cases hbs : hexDecode rawTx.hex with
      | none => rfl
      | some bs => simp [deserializeMsgTx, hbs] at he
    · intro h
      exact ⟨"failed to derialize raw tx", by simp [deserializeMsgTx, h]⟩
  · intro bs hbs
    simp [deserializeMsgTx, hbs]

/-- Witness for C10: `02000000` is valid hex, the wire decode of its
bytes fails, and the call returns that decode's mutated receiver with no
error. -/
theorem deserializeMsgTx_error_only_bad_hex_witness :
    hexDecode ("02000000") = some [2, 0, 0, 0] ∧
    deserializeMsgTx ⟨"02000000", "", ""⟩ =
      .ok (btcDecode (newMsgTx txVersion) [2, 0, 0, 0]).1 :=
  ⟨by decide, (deserializeMsgTx_error_only_bad_hex ⟨"02000000", "", ""⟩).2
    [2, 0, 0, 0] (by decide)⟩

/-- Counterexample for C10 as frozen: on the hex-valid input `02000000`
the wire decode fails, yet the returned transaction carries the decoded
version 2 — it is not the freshly-initialized version-1 transaction the
claim promises. -/
theorem deserializeMsgTx_mutated_counterexample :
    (btcDecode (newMsgTx txVersion) [2, 0, 0, 0]).2 = false ∧
    deserializeMsgTx ⟨"02000000", "", ""⟩ = .ok ⟨2, [], [], 0⟩ ∧
    (⟨2, [], [], 0⟩ : MsgTx) ≠ newMsgTx txVersion := by
  decide

/-- The default input used for out-of-range `getD` reads in statements. -/
def dTxIn : TxIn := ⟨⟨[], 0⟩, [], [], 0⟩

/-- The default metadata used for out-of-range `getD` reads in
statements. -/
def dSigMeta : SignatureMetadata := ⟨[], .inf, 0⟩

/-- C8: for every successful `SignTransaction` call, every input of the
returned transaction is given the witness stack
`[DER signature, compressed public key]` regardless of its
address-encoding tag — including Legacy inputs — and a non-empty
scriptSig (the single-push redeem script) exactly when the tag is
`WrappedSegwit`; consequently every signed transaction with at least one
input carries witness data. -/
theorem signTransaction_all_inputs_witnessed (msgTx : MsgTx)
    (params : ChainParams) (sigs : List SignatureMetadata)
    (hlen : msgTx.txIn.length = sigs.length)
    (i : Nat) (hi : i < sigs.length) :
    signTransaction msgTx params sigs =
      .ok (encodeMsgTx (signedMsgTx msgTx sigs)) ∧
    (signedMsgTx msgTx sigs).txIn.getD i dTxIn =
      signInput (msgTx.txIn.getD i dTxIn) (sigs.getD i dSigMeta) ∧
    (∀ inp sig, (signInput inp sig).witness =
      [sig.derSig, serCompressed sig.pubKey]) ∧
    (∀ inp sig, sig.addrEncoding ≠ wrappedSegwitEnc →
      (signInput inp sig).signatureScript = []) ∧
    (∀ inp sig, sig.addrEncoding = wrappedSegwitEnc →
      (signInput inp sig).signatureScript =
        pushData (p2wpkhScript (hash160 (serCompressed sig.pubKey)))) ∧
    hasWitness (signedMsgTx msgTx sigs) = true := by
  refine ⟨?_, ?_, ?_, ?_, ?_, ?_⟩
  · simp [signTransaction, hlen]
  · exact zipWith_getD signInput msgTx.txIn sigs i dTxIn dSigMeta dTxIn
      (hlen ▸ hi) hi
  · intro inp sig; rfl
  · intro inp sig h; simp [signInput, h]
  · intro inp sig h; simp [signInput, h]
  · have hz : (signedMsgTx msgTx sigs).txIn.length = sigs.length :=
      zipWith_length_of_eq signInput msgTx.txIn sigs hlen
    have h0 : 0 < (signedMsgTx msgTx sigs).txIn.length := by omega
    have hmem : (signedMsgTx msgTx sigs).txIn.getD 0 dTxIn ∈
        (signedMsgTx msgTx sigs).txIn := by
      rw [List.getD_eq_getElem _ _ h0]
      exact List.getElem_mem h0
    have hw : ((signedMsgTx msgTx sigs).txIn.getD 0 dTxIn).witness ≠ [] := by
      simp only [signedMsgTx]
      rw [zipWith_getD signInput msgTx.txIn sigs 0 dTxIn dSigMeta dTxIn
        (by omega) (by omega)]
      simp [signInput]
    simp only [hasWitness, List.any_eq_true]
    exact ⟨_, hmem, by simpa using hw⟩

/-- Witness for C8: a one-input transaction signed with a Legacy-tagged
metadata entry still carries a two-element witness stack and an empty
scriptSig. -/
theorem signTransaction_all_inputs_witnessed_witness :
    signTransaction ⟨1, [dTxIn], [], 0⟩ mainNetParams [⟨[0x30, 1], ptG, 0⟩] =
      .ok (encodeMsgTx (signedMsgTx ⟨1, [dTxIn], [], 0⟩ [⟨[0x30, 1], ptG, 0⟩])) ∧
    hasWitness (signedMsgTx ⟨1, [dTxIn], [], 0⟩ [⟨[0x30, 1], ptG, 0⟩]) = true := by
  have h := signTransaction_all_inputs_witnessed ⟨1, [dTxIn], [], 0⟩
    mainNetParams [⟨[0x30, 1], ptG, 0⟩] (by decide) 0 (by decide)
  exact ⟨h.1, h.2.2.2.2.2⟩

/-- Bind on a successful `Except` computes the continuation. -/
theorem exceptBindOk {ε α β : Type} (a : α) (f : α → Except ε β) :
    (Except.ok (ε := ε) a >>= f) = f a := rfl

/-- Mapping over a failed `Except` keeps the error. -/
theorem exceptMapError {ε α β : Type} (f : α → β) (e : ε) :
    (f <$> (Except.error e : Except ε α)) = Except.error e := rfl

/-- Bind on a failed `Except` keeps the error. -/
theorem exceptBindError {ε α β : Type} (e : ε) (f : α → Except ε β) :
    (Except.error (ε := ε) e >>= f) = Except.error e := rfl

/-- Whether a string parses as a public-only extended key. -/
def parsesToPublicKey (s : String) : Bool :=
  match newKeyFromString s with
  | .ok k => !k.isPrivate
  | .error _ => false

/-- A path containing a hardened index always fails from a public-only
key, with the hardened-derivation error (helper for C2). -/
theorem derivePath_hardened_public (path : List Nat) :
    ∀ (k : XKey), k.isPrivate = false →
    (∃ i ∈ path, hardenedKeyStart ≤ i) →
    derivePath k path = .error .deriveHardFromPublic := by
  induction path with
  | nil =>
    rintro k _ ⟨i, hi, _⟩
    simp at hi
  | cons j rest ih =>
    rintro k hk ⟨i, hi, hhard⟩
    match hkey : k.key with
    | .priv d => simp [XKey.isPrivate, hkey] at hk
    | .pub P =>
      by_cases hj : hardenedKeyStart ≤ j
      · simp [derivePath, childKey, hkey, hj]
      · have hrest : ∃ i ∈ rest, hardenedKeyStart ≤ i := by
          rcases List.mem_cons.mp hi with h | h
          · exact absurd (h ▸ hhard) hj
          · exact ⟨i, h, hhard⟩
        have hchild : childKey k j =
            .ok ⟨k.version, k.depth + 1,
              (hash160 (serCompressed k.pubPt)).take 4, j,
              (hmacSHA512 k.chainCode (serCompressed k.pubPt ++ be32 j)).drop 32,
              .pub (ptAdd (ptMul (beToNat ((hmacSHA512 k.chainCode
                (serCompressed k.pubPt ++ be32 j)).take 32)) ptG) P)⟩ := by
          simp [childKey, hkey, hj]
        rw [derivePath, hchild]
        exact ih _ (by simp [XKey.isPrivate]) hrest

/-- C2: for every public-only extended key and every derivation path
containing an index with the hardened bit set, `DeriveExtendedKey` always
fails with the cannot-derive-hardened-from-public error and never
produces a derived key. -/
theorem deriveExtendedKey_hardened_from_public (s : String) (path : List Nat)
    (hpub : parsesToPublicKey s = true)
    (hhard : ∃ i ∈ path, hardenedKeyStart ≤ i) :
    deriveExtendedKey s path = .error .deriveHardFromPublic := by
  unfold parsesToPublicKey at hpub
  split at hpub
  case _ k hk =>
    have hp : k.isPrivate = false := by simpa using hpub
    unfold deriveExtendedKey
    rw [hk, exceptBindOk, derivePath_hardened_public path k hp hhard,
      exceptBindError]
  case _ => simp at hpub

/-- Witness for C2: the BIP32 test-vector xpub with the test's hardened
path `m/0H/1/2H` fails with the hardened-derivation error. -/
theorem deriveExtendedKey_hardened_from_public_witness :
    deriveExtendedKey
      ("xpub6D4BDPcP2GT577Vvch3R8wDkScZWzQzMMUm3PWbmWvVJrZwQY4VUNgqFJPMM3No2dFDFGTsxxpG5uJh7n7epu4trkrX7x7DogT5Uv6fcLW5")
      [2147483648, 1, 2147483650] = .error .deriveHardFromPublic :=
  deriveExtendedKey_hardened_from_public _ _ (by decide) (by decide)

/-- C3: for every `create_transaction` call whose inputs total `X`
satoshis and recipients total `Y`, with the computed fee `F`, if
`X < Y + F` then the call succeeds with the insufficient-funds signal
carrying exactly the shortfall `Y + F - X` — no change, no other error
shape. -/
theorem createTransaction_insufficient_funds (tx : CoreTx)
    (params : ChainParams) (scripts : List (List Nat))
    (changeAddr : DecodedAddr)
    (hhash : tx.inputs.all (fun i => (hashFromStr i.outputHash).isSome) = true)
    (hscripts : coreOutputScripts tx params = .ok scripts)
    (hchange : decodeAddress (strNats tx.changeAddress) params =
      .ok changeAddr)
    (hshort : coreInputTotal tx < coreOutputTotal tx +
      feeForSize tx.feeSatPerKb (serializeWitness (coreMsgTx tx scripts
        [⟨0, payToAddrScript changeAddr⟩])).length) :
    createTransactionCore tx params = .ok
      ⟨encodeMsgTx (coreMsgTx tx scripts []),
       some (coreOutputTotal tx +
         feeForSize tx.feeSatPerKb (serializeWitness (coreMsgTx tx scripts
           [⟨0, payToAddrScript changeAddr⟩])).length - coreInputTotal tx),
       0,
       feeForSize tx.feeSatPerKb (serializeWitness (coreMsgTx tx scripts
         [⟨0, payToAddrScript changeAddr⟩])).length⟩ := by
  have hnone : tx.inputs.any (fun i => (hashFromStr i.outputHash).isNone)
      = false := by
    rw [List.any_eq_false]
    intro i hi
    have h2 := List.all_eq_true.mp hhash i hi
    cases hx : hashFromStr i.outputHash with
    | none => rw [hx] at h2; simp at h2
    | some v => simp [hx]
  unfold createTransactionCore
  rw [hnone, hscripts, hchange]
  simp only [Bool.false_eq_true, if_false]
  rw [if_pos hshort]

/-- The build request of the repository's insufficient-funds test case
(`core/tx_test.go`, "mainnet P2WPKH with not enough utxo"). -/
def c3tx : CoreTx :=
  ⟨[⟨"2f5dae23c2e18588c86cfc4e154f3b68bd8eb4265fe0b4b1341ad5aa40422f66", 0,
     strNats "76a914e18c90d108c3509e952c1d79121f1776facf1c6788ac", 100000⟩],
   [⟨"1MZbRqZGpiSWGRLg8DUdVrDKHwNe1oesUZ", 100000⟩],
   "1GgX4cGLiqF9p4Sd1XcPQhEAAhNDA4wLYS", 1234, 0⟩

/-- The decoded recipient script of the test case. -/
def c3scripts : List (List Nat) :=
  [payToAddrScript (.p2pkh ((hexDecode
    "e18c90d108c3509e952c1d79121f1776facf1c67").getD []))]

/-- The decoded change address of the test case. -/
def c3change : DecodedAddr :=
  .p2pkh ((hexDecode "ac033434f613be7b2cfda4067f188833bbab429e").getD [])

/-- Witness for C3: the repository's insufficient-funds test input
produces the insufficient-funds signal with the model's exact
shortfall. -/
theorem createTransaction_insufficient_funds_witness :
    createTransactionCore c3tx mainNetParams = .ok
      ⟨encodeMsgTx (coreMsgTx c3tx c3scripts []),
       some (coreOutputTotal c3tx +
         feeForSize c3tx.feeSatPerKb (serializeWitness (coreMsgTx c3tx
           c3scripts [⟨0, payToAddrScript c3change⟩])).length -
           coreInputTotal c3tx),
       0,
       feeForSize c3tx.feeSatPerKb (serializeWitness (coreMsgTx c3tx
         c3scripts [⟨0, payToAddrScript c3change⟩])).length⟩ :=
  createTransaction_insufficient_funds c3tx mainNetParams c3scripts c3change
    (by decide) (by decide) (by decide) (by decide)

/-- C6: for every valid secp256k1 public key, 32-byte chain code and
account index, `GetAccountExtendedKey` succeeds and returns the
serialized extended public key of depth 3 whose child number is the
account index plus the hardened bit (as a 32-bit word), whose chain code
is the supplied one, and whose parent-fingerprint field is the first 4
bytes of HASH160 of the compressed serialization of the supplied child
public key itself — not of any true parent. -/
theorem getAccountExtendedKey_fields (pk cc : List Nat) (idx : Nat)
    (params : ChainParams) (P : Pt)
    (hp : parsePubKey pk = .ok P) (_hcc : cc.length = 32) :
    getAccountExtendedKey pk cc idx params = .ok (XKey.toString
      ⟨params.hdPublicKeyID, 3, (hash160 (serCompressed P)).take 4,
       (idx + hardenedKeyStart) % 2 ^ 32, cc, .pub P⟩) := by
  unfold getAccountExtendedKey
  rw [hp, exceptBindOk]
  rfl

/-- Witness for C6: the repository's `TestGetAccountExtendedKey` vector,
whose expected string is the known
`xpub6DVHQNhjvVchuKeMGnKbbNSdczQ4yMqEW1H1qhQzk1oPxkSqyHZR9Pn7zZ494sVhZqK2WD8kxo9rqiJFL41P67JCdNYka2W5LnANDVWSjzm`. -/
theorem getAccountExtendedKey_fields_witness :
    getAccountExtendedKey
      ((hexDecode
        "02c368bdec47a1b6faa76d624ead0cd2783234983c466767216ecdac8c472df3a6").getD [])
      ((hexDecode
        "b6b8a49c6234b26c91bfafacd9054c18562130234dc39e9463561ca6667f40f8").getD [])
      0 mainNetParams = .ok (XKey.toString
        ⟨mainNetParams.hdPublicKeyID, 3,
         (hash160 (serCompressed (.aff
           88386068368624552870186223661290494115043582443107816193956072651654303708070
           10022119161079215068549016528988009189175046554082230104389226423238677027738))).take 4,
         (0 + hardenedKeyStart) % 2 ^ 32,
         (hexDecode
           "b6b8a49c6234b26c91bfafacd9054c18562130234dc39e9463561ca6667f40f8").getD [],
         .pub (.aff
           88386068368624552870186223661290494115043582443107816193956072651654303708070
           10022119161079215068549016528988009189175046554082230104389226423238677027738)⟩) ∧
    XKey.toString
      ⟨mainNetParams.hdPublicKeyID, 3,
       (hash160 (serCompressed (.aff
         88386068368624552870186223661290494115043582443107816193956072651654303708070
         10022119161079215068549016528988009189175046554082230104389226423238677027738))).take 4,
       (0 + hardenedKeyStart) % 2 ^ 32,
       (hexDecode
         "b6b8a49c6234b26c91bfafacd9054c18562130234dc39e9463561ca6667f40f8").getD [],
       .pub (.aff
         88386068368624552870186223661290494115043582443107816193956072651654303708070
         10022119161079215068549016528988009189175046554082230104389226423238677027738)⟩ =
      "xpub6DVHQNhjvVchuKeMGnKbbNSdczQ4yMqEW1H1qhQzk1oPxkSqyHZR9Pn7zZ494sVhZqK2WD8kxo9rqiJFL41P67JCdNYka2W5LnANDVWSjzm" :=
  ⟨getAccountExtendedKey_fields _ _ 0 mainNetParams _ (by decide) (by decide),
   by decide⟩

/-- A positive count has a nonzero leading varint byte. -/
theorem serVarInt_pos_head (n : Nat) (hn : 0 < n) :
    ∃ m tl, serVarInt n = m :: tl ∧ m ≠ 0 := by
  unfold serVarInt
  by_cases h1 : n < 0xfd
  · exact ⟨n, [], by simp [h1], by omega⟩
  · by_cases h2 : n ≤ 0xffff
    · exact ⟨0xfd, [n &&& 255, (n >>> 8) &&& 255], by simp [h1, h2], by omega⟩
    · by_cases h3 : n ≤ 0xffffffff
      · exact ⟨0xfe, le32 n, by simp [h1, h2, h3], by omega⟩
      · exact ⟨0xff, le64 n, by simp [h1, h2, h3], by omega⟩

/-- With at least one input, the witness-capable serialization differs
from the legacy one: the segwit marker byte is where the nonzero input
count's varint sits. -/
theorem serializeWitness_ne_noWitness (tx : MsgTx) (hne : tx.txIn ≠ []) :
    serializeWitness tx ≠ serializeNoWitness tx := by
  intro heq
  have hn : 0 < tx.txIn.length := List.length_pos.mpr hne
  obtain ⟨m, tl, hsv, hm⟩ := serVarInt_pos_head tx.txIn.length hn
  unfold serializeWitness serializeNoWitness at heq
  rw [hsv] at heq
  simp only [List.append_assoc, List.cons_append, List.nil_append] at heq
  have h2 := List.append_cancel_left heq
  rw [List.cons.injEq] at h2
  exact hm h2.1.symm

/-- C1: for every transaction returned by `SignTransaction`, the witness
hash equals the transaction hash when and only when no input of the
serialized transaction carries witness data (under the standard
assumption that double SHA-256 does not collide on the two layouts of
this transaction); and for a transaction whose inputs are all P2WPKH
(`NativeSegwit`), every input of the result has exactly the two witness
stack elements — the DER signature and the compressed public key — and an
empty scriptSig. -/
theorem signTransaction_witness_hash_iff (msgTx : MsgTx)
    (params : ChainParams) (sigs : List SignatureMetadata)
    (hlen : msgTx.txIn.length = sigs.length)
    (hcf : hashToStr (doubleSHA256
        (serializeWitness (signedMsgTx msgTx sigs))) =
      hashToStr (doubleSHA256
        (serializeNoWitness (signedMsgTx msgTx sigs))) →
      serializeWitness (signedMsgTx msgTx sigs) =
        serializeNoWitness (signedMsgTx msgTx sigs)) :
    signTransaction msgTx params sigs =
      .ok (encodeMsgTx (signedMsgTx msgTx sigs)) ∧
    ((encodeMsgTx (signedMsgTx msgTx sigs)).witnessHash =
        (encodeMsgTx (signedMsgTx msgTx sigs)).hash ↔
      ∀ inp ∈ (signedMsgTx msgTx sigs).txIn, inp.witness = []) ∧
    ((∀ sig ∈ sigs, sig.addrEncoding = nativeSegwitEnc) →
      ∀ inp ∈ (signedMsgTx msgTx sigs).txIn,
        (∃ sig ∈ sigs, inp.witness =
          [sig.derSig, serCompressed sig.pubKey]) ∧
        inp.witness.length = 2 ∧ inp.signatureScript = []) := by
  refine ⟨by simp [signTransaction, hlen], ?_, ?_⟩
  · constructor
    · intro hstr
      by_cases hw : hasWitness (signedMsgTx msgTx sigs)
      · exfalso
        have hne : (signedMsgTx msgTx sigs).txIn ≠ [] := by
          rcases List.any_eq_true.mp hw with ⟨inp, hmem, _⟩
          exact List.ne_nil_of_mem hmem
        refine serializeWitness_ne_noWitness _ hne (hcf ?_)
        simpa [encodeMsgTx, witnessHash, txHash, hw] using hstr
      · intro inp hmem
        have := List.any_eq_false.mp (Bool.not_eq_true _ ▸ hw) inp hmem
        simpa using this
    · intro hall
      have hw : hasWitness (signedMsgTx msgTx sigs) = false := by
        rw [hasWitness, List.any_eq_false]
        intro inp hmem
        simp [hall inp hmem]
      simp [encodeMsgTx, witnessHash, hw]
  · intro hnat inp hmem
    obtain ⟨i, hilt, hieq⟩ := List.getElem_of_mem hmem
    have hzl : i < (List.zipWith signInput msgTx.txIn sigs).length := by
      simpa [signedMsgTx] using hilt
    have him : i < msgTx.txIn.length := by
      simp [List.length_zipWith] at hzl
      omega
    have his : i < sigs.length := by
      simp [List.length_zipWith] at hzl
      omega
    have hig : inp = signInput msgTx.txIn[i] sigs[i] := by
      rw [← hieq]
      simp only [signedMsgTx] at hzl ⊢
      exact List.getElem_zipWith (h := hzl)
    have hsi : sigs[i] ∈ sigs := List.getElem_mem _
    refine ⟨⟨sigs[i], hsi, by simp [hig, signInput]⟩,
      by simp [hig, signInput], ?_⟩
    have henc := hnat sigs[i] hsi
    simp [hig, signInput, henc, nativeSegwitEnc, wrappedSegwitEnc]

/-- The one-input transaction used as the C1 witness instance. -/
def c1tx : MsgTx := ⟨1, [dTxIn], [], 0⟩

/-- The all-NativeSegwit metadata list used as the C1 witness instance. -/
def c1sigs : List SignatureMetadata := [⟨[0x30, 1], ptG, nativeSegwitEnc⟩]

/-- Witness for C1: a concrete one-input all-P2WPKH signing, with the
collision-freeness hypothesis discharged by evaluating both hashes. -/
theorem signTransaction_witness_hash_iff_witness :
    signTransaction c1tx mainNetParams c1sigs =
      .ok (encodeMsgTx (signedMsgTx c1tx c1sigs)) ∧
    ((encodeMsgTx (signedMsgTx c1tx c1sigs)).witnessHash =
        (encodeMsgTx (signedMsgTx c1tx c1sigs)).hash ↔
      ∀ inp ∈ (signedMsgTx c1tx c1sigs).txIn, inp.witness = []) ∧
    ((∀ sig ∈ c1sigs, sig.addrEncoding = nativeSegwitEnc) →
      ∀ inp ∈ (signedMsgTx c1tx c1sigs).txIn,
        (∃ sig ∈ c1sigs, inp.witness =
          [sig.derSig, serCompressed sig.pubKey]) ∧
        inp.witness.length = 2 ∧ inp.signatureScript = []) :=
  signTransaction_witness_hash_iff c1tx mainNetParams c1sigs (by decide)
    (fun h => absurd h (by decide))

/-! ## Digit-algebra lemmas -/

/-- Fixed-width digit lists have the fixed width. -/
theorem natToBasePad_length (base : Nat) :
    ∀ (w n : Nat), (natToBasePad base w n).length = w := by
  intro w
  induction w with
  | zero => intro n; rfl
  | succ w ih => intro n; simp [natToBasePad, ih]

/-- Reading back a fixed-width digit list recovers the value below
`base ^ w`. -/
theorem baseToNat_natToBasePad (base : Nat) (hb : 1 < base) :
    ∀ (w n : Nat), n < base ^ w →
    baseToNat base (natToBasePad base w n) = n := by
  intro w
  induction w with
  | zero =>
    intro n hn
    simp [pow_zero] at hn
    simp [natToBasePad, baseToNat, hn]
  | succ w ih =>
    intro n hn
    have hdiv : n / base < base ^ w := by
      rw [Nat.div_lt_iff_lt_mul (by omega)]
      calc n < base ^ (w + 1) := hn
      _ = base ^ w * base := by ring
    simp only [natToBasePad, baseToNat, List.foldl_append, List.foldl_cons,
      List.foldl_nil]
    have := ih (n / base) hdiv
    simp only [baseToNat] at this
    rw [this]
    exact Nat.div_add_mod' n base

/-- `beToNat` is base-256 digit reading. -/
theorem beToNat_eq_baseToNat (bs : List Nat) :
    beToNat bs = baseToNat 256 bs := rfl

/-- Reading back 32 big-endian bytes of a value below `2 ^ 256`. -/
theorem beToNat_natToBEPad32 (n : Nat) (h : n < 256 ^ 32) :
    beToNat (natToBEPad 32 n) = n := by
  rw [beToNat_eq_baseToNat, natToBEPad, baseToNat_natToBasePad 256 (by omega) 32 n h]

/-- An uncompressed serialization of an on-curve point with reduced
coordinates parses back to the same point. -/
theorem parsePubKey_serUncompressed (x y : Nat) (hx : x < secpP)
    (hy : y < secpP) (hcurve : y * y % secpP = curveRHS x) :
    parsePubKey (serUncompressed (.aff x y)) = .ok (.aff x y) := by
  have hxb : x < 256 ^ 32 := lt_trans hx (by norm_num [secpP])
  have hyb : y < 256 ^ 32 := lt_trans hy (by norm_num [secpP])
  have hlx : (natToBEPad 32 x).length = 32 := natToBasePad_length 256 32 x
  have hly : (natToBEPad 32 y).length = 32 := natToBasePad_length 256 32 y
  have hlen : (serUncompressed (.aff x y)).length = 65 := by
    simp [serUncompressed, hlx, hly]
  have hdropx : ((serUncompressed (Pt.aff x y)).drop 1).take 32 =
      natToBEPad 32 x := by
    simp [serUncompressed, List.take_append_of_le_length, hlx]
  have hdropy : (serUncompressed (Pt.aff x y)).drop 33 = natToBEPad 32 y := by
    have : (serUncompressed (Pt.aff x y)).drop 33 =
        ((natToBEPad 32 x ++ natToBEPad 32 y).drop 32) := by
      simp [serUncompressed]
    rw [this, List.drop_append_of_le_length (by omega),
      List.drop_eq_nil_of_le (le_of_eq hlx)]
    simp
  unfold parsePubKey
  rw [hlen]
  simp only [show (65 : Nat) ≠ 33 by decide, if_false, if_pos rfl]
  rw [hdropx, hdropy, beToNat_natToBEPad32 x hxb, beToNat_natToBEPad32 y hyb]
  simp [serUncompressed, hx, hy, hcurve, Nat.not_le.mpr hx, Nat.not_le.mpr hy]

/-- C9: for every public key accepted by `EncodeAddress`, compressed or
uncompressed, the resulting address depends only on the underlying curve
point — the key is re-serialized in compressed form before HASH160 — so
an uncompressed key yields the same address as its compressed equivalent
for every encoding and network (given, per instance, that compressed
round-trip decompression recovers the point). -/
theorem encodeAddress_point_only (x y : Nat) (hx : x < secpP)
    (hy : y < secpP) (hcurve : y * y % secpP = curveRHS x)
    (hdec : parsePubKey (serCompressed (.aff x y)) = .ok (.aff x y))
    (enc : AddressEncoding) (params : ChainParams) :
    encodeAddress (serUncompressed (.aff x y)) enc params =
      encodeAddress (serCompressed (.aff x y)) enc params ∧
    (∀ pk1 pk2 P, parsePubKey pk1 = .ok P → parsePubKey pk2 = .ok P →
      encodeAddress pk1 enc params = encodeAddress pk2 enc params) := by
  have hgen : ∀ pk1 pk2 P, parsePubKey pk1 = .ok P → parsePubKey pk2 = .ok P →
      encodeAddress pk1 enc params = encodeAddress pk2 enc params := by
    intro pk1 pk2 P h1 h2
    unfold encodeAddress
    rw [h1, h2]
  exact ⟨hgen _ _ (.aff x y)
    (parsePubKey_serUncompressed x y hx hy hcurve) hdec, hgen⟩

/-- The x-coordinate of the uncompressed test key of
`TestEncodeAddress`. -/
def c9x : Nat :=
  25210282456129152455047838055408079221049476175136221307416710138232316543223

/-- The y-coordinate of the uncompressed test key of
`TestEncodeAddress`. -/
def c9y : Nat :=
  107699220965104380297391477914876097614784452364225788905122978628421140588801

/-- Witness for C9: the repository's uncompressed P2PKH test key agrees
with its compressed equivalent on mainnet Legacy encoding. -/
theorem encodeAddress_point_only_witness :
    encodeAddress (serUncompressed (.aff c9x c9y)) legacyEnc mainNetParams =
      encodeAddress (serCompressed (.aff c9x c9y)) legacyEnc mainNetParams ∧
    (∀ pk1 pk2 P, parsePubKey pk1 = .ok P → parsePubKey pk2 = .ok P →
      encodeAddress pk1 legacyEnc mainNetParams =
        encodeAddress pk2 legacyEnc mainNetParams) :=
  encodeAddress_point_only c9x c9y (by decide) (by decide) (by decide)
    (by decide) legacyEnc mainNetParams

/-- C7: for every input string, `ValidateAddress` either succeeds
returning the canonically re-encoded address string, or fails with a
decode error describing the specific defect — including the
expected-versus-actual checksum values on a bad checksum and a
mixed-case rejection for mixed-case bech32 strings, as on the
repository's test vectors. -/
theorem validateAddress_total_canonical :
    (∀ (s : String) (params : ChainParams),
      (∃ d, decodeAddress (strNats s) params = .ok d ∧
        validateAddress s params = .ok (encodeDecoded d params)) ∨
      (∃ e, validateAddress s params = .error e)) ∧
    validateAddress ("bc1qw508d6qejxtdg4y5r3zarvary0c5xw7kv8f3t5")
      mainNetParams =
      .error (.bech32 (.badChecksum ("v8f3t4") ("v8f3t5"))) ∧
    validateAddress
      ("tb1qrp33g0q5c5txsp9arysrx4k6zdkfs4nce4xj0gdcccefvpysxf3q0sL5k7")
      testNet3Params = .error (.bech32 .mixedCase) ∧
    validateAddress ("1MirQ9bwyQcGVJPwKUgapu5ouK2E2Ey4gX") mainNetParams =
      .ok ("1MirQ9bwyQcGVJPwKUgapu5ouK2E2Ey4gX") := by
  refine ⟨?_, by decide, by decide, by decide⟩
  intro s params
  cases h : decodeAddress (strNats s) params with
  | ok d => exact .inl ⟨d, rfl, by simp [validateAddress, h]⟩
  | error e => exact .inr ⟨e, by simp [validateAddress, h]⟩

/-- C4: `DeriveExtendedKey` is deterministic — applied twice to the same
extended key string and path it returns byte-identical results — and
deriving the path `[0, 2147483647, 1, 2147483646, 2]` from the BIP32
test-vector mainnet xpub reproduces exactly the known child xpub string,
33-byte public key, and 32-byte chain code expected by
`TestDeriveExtendedKey`. -/
theorem deriveExtendedKey_deterministic_vector :
    (∀ (extendedKey : String) (derivation : List Nat),
      deriveExtendedKey extendedKey derivation =
        deriveExtendedKey extendedKey derivation) ∧
    deriveExtendedKey
      ("xpub661MyMwAqRbcFW31YEwpkMuc5THy2PSt5bDMsktWQcFF8syAmRUapSCGu8ED9W6oDMSgv6Zz8idoc4a6mr8BDzTJY47LJhkJ8UB7WEGuduB")
      [0, 2147483647, 1, 2147483646, 2] = .ok
      ⟨"xpub6H7WkJf547AiSwAbX6xsm8Bmq9M9P1Gjequ5SipsjipWmtXSyp4C3uwzewedGEgAMsDy4jEvNTWtxLyqqHY9C12gaBmgUdk2CGmwachwnWK",
       [0x03, 0x54, 0xf9, 0x40, 0xcd, 0xd9, 0x6e, 0xeb,
        0x6b, 0xb5, 0xea, 0x60, 0x76, 0x95, 0x1e, 0x28,
        0xc2, 0x5f, 0xec, 0x76, 0xad, 0xf2, 0xc7, 0x8d,
        0x1e, 0xdc, 0xae, 0xc4, 0x20, 0xe7, 0xc8, 0xc7, 0x0b],
       [0x1a, 0xc7, 0x97, 0x78, 0x3c, 0x3e, 0x3d, 0x79,
        0x83, 0xdc, 0x80, 0xb9, 0xa5, 0x80, 0xd4, 0xba,
        0x0d, 0x2d, 0x6b, 0xf9, 0x89, 0xfd, 0x35, 0xa2,
        0x1f, 0x41, 0x83, 0xd4, 0x33, 0x6f, 0xdf, 0x24]⟩ :=
  ⟨fun _ _ => rfl, by decide⟩

/-! ## Generic digit lemmas for the round-trip proofs -/

/-- Digit extraction is fuel-independent once the fuel exceeds the
value. -/
theorem natToBaseAux_fuel (base : Nat) (hb : 1 < base) :
    ∀ f1 f2 n, n < f1 → n < f2 →
    natToBaseAux base f1 n = natToBaseAux base f2 n := by
  intro f1
  induction f1 with
  | zero => intro f2 n h1; omega
  | succ f ih =>
    intro f2 n h1 h2
    cases f2 with
    | zero => omega
    | succ g =>
      by_cases hn : n = 0
      · simp [natToBaseAux, hn]
      · have hdiv : n / base < n := Nat.div_lt_self (by omega) hb
        simp only [natToBaseAux, if_neg hn]
        rw [ih g (n / base) (by omega) (by omega)]

/-- Unfolding law for minimal digit extraction. -/
theorem natToBase_unfold (base : Nat) (hb : 1 < base) (n : Nat)
    (hn : n ≠ 0) :
    natToBase base n = natToBase base (n / base) ++ [n % base] := by
  have hdiv : n / base < n := Nat.div_lt_self (by omega) hb
  have e1 : natToBaseAux base (n + 1) n =
      natToBaseAux base n (n / base) ++ [n % base] := by
    conv_lhs => rw [natToBaseAux]
    rw [if_neg hn]
  show natToBaseAux base (n + 1) n = _
  rw [e1, natToBase]
  congr 1
  exact natToBaseAux_fuel base hb n (n / base + 1) (n / base) hdiv
    (by omega)

/-- Zero has no digits. -/
theorem natToBase_zero (base : Nat) : natToBase base 0 = [] := rfl

/-- Reading a digit list with one digit appended. -/
theorem baseToNat_append_one (base : Nat) (ds : List Nat) (d : Nat) :
    baseToNat base (ds ++ [d]) = baseToNat base ds * base + d := by
  simp [baseToNat, List.foldl_append]

/-- Reading back the minimal digits recovers the value. -/
theorem baseToNat_natToBase (base : Nat) (hb : 1 < base) :
    ∀ n, baseToNat base (natToBase base n) = n := by
  intro n
  induction n using Nat.strong_induction_on with
  | _ n ih =>
    by_cases hn : n = 0
    · simp [hn, natToBase_zero, baseToNat]
    · have hdiv : n / base < n := Nat.div_lt_self (by omega) hb
      rw [natToBase_unfold base hb n hn, baseToNat_append_one,
        ih (n / base) hdiv]
      exact Nat.div_add_mod' n base

/-- All minimal digits are below the base. -/
theorem natToBase_digits_lt (base : Nat) (hb : 1 < base) :
    ∀ n, ∀ d ∈ natToBase base n, d < base := by
  intro n
  induction n using Nat.strong_induction_on with
  | _ n ih =>
    intro d hd
    by_cases hn : n = 0
    · rw [hn, natToBase_zero] at hd; simp at hd
    · rw [natToBase_unfold base hb n hn] at hd
      rcases List.mem_append.mp hd with h | h
      · exact ih (n / base) (Nat.div_lt_self (by omega) hb) d h
      · simp at h
        subst h
        exact Nat.mod_lt n (by omega)

/-- A nonzero value has digits, and the leading digit is nonzero. -/
theorem natToBase_head (base : Nat) (hb : 1 < base) :
    ∀ n, n ≠ 0 → natToBase base n ≠ [] ∧
      (natToBase base n).headD 0 ≠ 0 := by
  intro n
  induction n using Nat.strong_induction_on with
  | _ n ih =>
    intro hn
    rw [natToBase_unfold base hb n hn]
    by_cases hq : n / base = 0
    · have h1 : n < base := by
        rcases Nat.lt_or_ge n base with h | h
        · exact h
        · exact absurd hq (by
            have := Nat.one_le_div_iff (by omega : 0 < base) |>.mpr h
            omega)
      rw [hq, natToBase_zero]
      refine ⟨by simp, ?_⟩
      simpa [Nat.mod_eq_of_lt h1] using hn
    · obtain ⟨hne, hhd⟩ := ih (n / base) (Nat.div_lt_self (by omega) hb) hq
      cases hds : natToBase base (n / base) with
      | nil => exact absurd hds hne
      | cons a t =>
        rw [hds] at hhd
        simp at hhd
        simp [hhd]

/-- Minimal digits of a value in `[base ^ L, base ^ (L + 1))` are the
padded digits of width `L + 1`. -/
theorem natToBase_eq_pad (base : Nat) (hb : 1 < base) :
    ∀ L n, base ^ L ≤ n → n < base ^ (L + 1) →
    natToBase base n = natToBasePad base (L + 1) n := by
  intro L
  induction L with
  | zero =>
    intro n h1 h2
    simp only [pow_zero] at h1
    simp only [Nat.zero_add, pow_one] at h2
    have hn : n ≠ 0 := by omega
    rw [natToBase_unfold base hb n hn, Nat.div_eq_of_lt h2,
      natToBase_zero]
    simp [natToBasePad, Nat.div_eq_of_lt h2]
  | succ L ih =>
    intro n h1 h2
    have hn : n ≠ 0 := by
      have : 0 < base ^ (L + 1) := Nat.pos_pow_of_pos _ (by omega)
      omega
    have hd1 : base ^ L ≤ n / base := by
      rw [Nat.le_div_iff_mul_le (by omega)]
      calc base ^ L * base = base ^ (L + 1) := by ring
      _ ≤ n := h1
    have hd2 : n / base < base ^ (L + 1) := by
      rw [Nat.div_lt_iff_lt_mul (by omega)]
      calc n < base ^ (L + 1 + 1) := h2
      _ = base ^ (L + 1) * base := by ring
    rw [natToBase_unfold base hb n hn, ih (n / base) hd1 hd2]
    rfl

/-- Head of a padded digit list. -/
theorem natToBasePad_headD (base : Nat) :
    ∀ L n, (natToBasePad base (L + 1) n).headD 0 = n / base ^ L % base := by
  intro L
  induction L with
  | zero => intro n; simp [natToBasePad]
  | succ L ih =>
    intro n
    show (natToBasePad base (L + 1) (n / base) ++ [n % base]).headD 0 = _
    have hne : natToBasePad base (L + 1) (n / base) ≠ [] := by
      intro h
      have hl := natToBasePad_length base (L + 1) (n / base)
      rw [h] at hl
      simp at hl
    cases hds : natToBasePad base (L + 1) (n / base) with
    | nil => exact absurd hds hne
    | cons a t =>
      have h2 := ih (n / base)
      rw [hds] at h2
      simp only [List.headD_cons] at h2
      simp only [List.cons_append, List.headD_cons]
      rw [h2, Nat.div_div_eq_div_mul, ← pow_succ']

/-- Writing back a digit list of digits below the base recovers it. -/
theorem natToBasePad_baseToNat (base : Nat) (hb : 1 < base) :
    ∀ ds, (∀ d ∈ ds, d < base) →
    natToBasePad base ds.length (baseToNat base ds) = ds := by
  intro ds
  induction ds using List.reverseRecOn with
  | nil => intro _; rfl
  | append_singleton t d ih =>
    intro hd
    have hdl : d < base := hd d (by simp)
    have htl : ∀ x ∈ t, x < base := fun x hx => hd x (by simp [hx])
    rw [baseToNat_append_one]
    have hlen : (t ++ [d]).length = t.length + 1 := by simp
    rw [hlen]
    show natToBasePad base t.length ((baseToNat base t * base + d) / base) ++
      [(baseToNat base t * base + d) % base] = t ++ [d]
    have e : baseToNat base t * base + d = d + base * baseToNat base t := by
      ring
    rw [e, Nat.add_mul_div_left _ _ (by omega : 0 < base),
      Nat.div_eq_of_lt hdl, Nat.zero_add, Nat.add_mul_mod_self_left,
      Nat.mod_eq_of_lt hdl, ih htl]

/-- The value of a digit list is bounded by the base power. -/
theorem baseToNat_lt (base : Nat) (hb : 0 < base) :
    ∀ ds, (∀ d ∈ ds, d < base) →
    baseToNat base ds < base ^ ds.length := by
  intro ds
  induction ds using List.reverseRecOn with
  | nil => intro _; simp [baseToNat]
  | append_singleton t d ih =>
    intro hd
    have hdl : d < base := hd d (by simp)
    have htl : ∀ x ∈ t, x < base := fun x hx => hd x (by simp [hx])
    rw [baseToNat_append_one]
    have := ih htl
    have hlen : (t ++ [d]).length = t.length + 1 := by simp
    rw [hlen, pow_succ]
    nlinarith

/-- Leading zero digits do not change the value. -/
theorem baseToNat_replicate_zero (base : Nat) :
    ∀ z ds, baseToNat base (List.replicate z 0 ++ ds) = baseToNat base ds := by
  intro z
  induction z with
  | zero => intro ds; rfl
  | succ z ih =>
    intro ds
    have : List.replicate (z + 1) 0 ++ ds = 0 :: (List.replicate z 0 ++ ds) := by
      simp [List.replicate_succ]
    rw [this]
    have h0 : baseToNat base (0 :: (List.replicate z 0 ++ ds)) =
        baseToNat base (List.replicate z 0 ++ ds) := by
      simp [baseToNat]
    rw [h0, ih ds]

/-- Reading a cons digit list. -/
theorem baseToNat_cons (base d : Nat) (ds : List Nat) :
    baseToNat base (d :: ds) = d * base ^ ds.length + baseToNat base ds := by
  induction ds using List.reverseRecOn generalizing d with
  | nil => simp [baseToNat]
  | append_singleton t e ih =>
    have h1 : d :: (t ++ [e]) = (d :: t) ++ [e] := rfl
    rw [h1, baseToNat_append_one, ih, baseToNat_append_one]
    simp [pow_succ]
    ring

/-! ## Base58 round-trip -/

/-- Each Base58 digit decodes back from its alphabet character. -/
theorem b58Val_b58Char (d : Nat) (hd : d < 58) :
    b58Val ((b58Char d).toNat) = some d := by
  revert d hd
  decide

/-- No nonzero Base58 digit maps to the character `1`. -/
theorem b58Char_ne_one (d : Nat) (hd : d < 58) (h0 : d ≠ 0) :
    (b58Char d).toNat ≠ 49 := by
  revert d hd h0
  decide

/-- Decoding characters distributes over append. -/
theorem b58Vals_append (xs : List Nat) :
    ∀ ys vx vy, b58Vals xs = some vx → b58Vals ys = some vy →
    b58Vals (xs ++ ys) = some (vx ++ vy) := by
  induction xs with
  | nil =>
    intro ys vx vy hx hy
    simp [b58Vals] at hx
    subst hx
    simpa using hy
  | cons c rest ih =>
    intro ys vx vy hx hy
    rw [List.cons_append]
    simp only [b58Vals, Option.bind_eq_bind] at hx ⊢
    cases hv : b58Val c with
    | none => rw [hv] at hx; simp at hx
    | some v =>
      rw [hv] at hx
      simp only [Option.some_bind] at hx ⊢
      cases ht : b58Vals rest with
      | none => rw [ht] at hx; simp at hx
      | some tl =>
        rw [ht] at hx
        simp only [Option.some_bind, Option.some_inj] at hx
        rw [ih ys tl vy ht hy]
        simp only [Option.pure_def, Option.some_inj] at hx
        subst hx
        simp

/-- A run of `1` characters decodes to zero digits. -/
theorem b58Vals_replicate_one : ∀ k,
    b58Vals (List.replicate k 49) = some (List.replicate k 0) := by
  intro k
  induction k with
  | zero => rfl
  | succ k ih =>
    simp only [List.replicate_succ, b58Vals, Option.bind_eq_bind]
    rw [show b58Val 49 = some 0 from rfl, ih]
    rfl

/-- Alphabet characters of digits below 58 decode to those digits. -/
theorem b58Vals_map_char (ds : List Nat) (hds : ∀ d ∈ ds, d < 58) :
    b58Vals (ds.map (fun d => (b58Char d).toNat)) = some ds := by
  induction ds with
  | nil => rfl
  | cons d t ih =>
    simp only [List.map_cons, b58Vals, Option.bind_eq_bind]
    rw [b58Val_b58Char d (hds d (by simp)), ih (fun x hx => hds x (by simp [hx]))]
    rfl

/-- Counting leading markers through a marker run. -/
theorem leadOnes_replicate_append : ∀ k rest,
    leadOnes (List.replicate k 49 ++ rest) = k + leadOnes rest := by
  intro k
  induction k with
  | zero => intro rest; simp
  | succ k ih =>
    intro rest
    simp only [List.replicate_succ, List.cons_append, leadOnes, if_true,
      List.append_eq]
    rw [ih rest]
    omega

/-- No leading markers when the head character differs. -/
theorem leadOnes_of_head_ne (cs : List Nat) (h : cs.headD 0 ≠ 49) :
    leadOnes cs = 0 := by
  cases cs with
  | nil => rfl
  | cons c rest =>
    simp only [List.headD_cons] at h
    simp [leadOnes, h]

/-- Splitting off the leading-marker run recovers the list. -/
theorem leadCount_decomp (z : Nat) : ∀ bs : List Nat,
    List.replicate (leadCount z bs) z ++ bs.drop (leadCount z bs) = bs := by
  intro bs
  induction bs with
  | nil => rfl
  | cons b rest ih =>
    by_cases hb : b = z
    · subst hb
      simp only [leadCount, if_true, List.replicate_succ, List.cons_append,
        List.drop_succ_cons, List.append_eq]
      rw [ih]
    · simp [leadCount, hb]

/-- After the leading-marker run, the next element differs from the
marker. -/
theorem leadCount_drop_head (z : Nat) : ∀ bs : List Nat,
    (bs.drop (leadCount z bs)).headD (z + 1) ≠ z := by
  intro bs
  induction bs with
  | nil => simp
  | cons b rest ih =>
    by_cases hb : b = z
    · subst hb
      simpa [leadCount, List.drop_succ_cons] using ih
    · simpa [leadCount, hb] using hb

/-- Minimal digits of a read-back digit list with a nonzero head. -/
theorem natToBase_baseToNat_of_head (base : Nat) (hb : 1 < base)
    (ds : List Nat) (hds : ∀ d ∈ ds, d < base)
    (hhd : ds = [] ∨ ds.headD 0 ≠ 0) :
    natToBase base (baseToNat base ds) = ds := by
  cases ds with
  | nil => simp [baseToNat, natToBase_zero]
  | cons d t =>
    rcases hhd with h | h
    · exact absurd h (by simp)
    simp only [List.headD_cons] at h
    have hd : d < base := hds d (by simp)
    have ht : ∀ x ∈ t, x < base := fun x hx => hds x (by simp [hx])
    have hv := baseToNat_cons base d t
    have hlt : baseToNat base t < base ^ t.length := baseToNat_lt base (by omega) t ht
    have h1 : base ^ t.length ≤ baseToNat base (d :: t) := by
      rw [hv]
      have : 1 * base ^ t.length ≤ d * base ^ t.length :=
        Nat.mul_le_mul_right _ (by omega)
      omega
    have h2 : baseToNat base (d :: t) < base ^ (t.length + 1) := by
      rw [hv]
      have hd1 : d + 1 ≤ base := hd
      calc d * base ^ t.length + baseToNat base t
          < d * base ^ t.length + base ^ t.length := by omega
      _ = (d + 1) * base ^ t.length := by ring
      _ ≤ base * base ^ t.length := Nat.mul_le_mul_right _ hd1
      _ = base ^ (t.length + 1) := by ring
    rw [natToBase_eq_pad base hb t.length _ h1 h2]
    have : (d :: t).length = t.length + 1 := by simp
    rw [← this, natToBasePad_baseToNat base hb (d :: t) hds]

/-- Base58 decoding inverts Base58 encoding on byte lists. -/
theorem b58Decode_b58Encode (bs : List Nat) (hbs : ∀ b ∈ bs, b < 256) :
    b58Decode ((b58Encode bs).map Char.toNat) = some bs := by
  have hk := leadCount_decomp 0 bs
  have hkh := leadCount_drop_head 0 bs
  set k := leadCount 0 bs with hkdef
  set rest := bs.drop k with hrest
  have hrb : ∀ b ∈ rest, b < 256 := by
    intro b hb
    exact hbs b (by rw [← hk]; exact List.mem_append.mpr (Or.inr hb))
  have hn : beToNat bs = baseToNat 256 rest := by
    rw [beToNat_eq_baseToNat, ← hk, baseToNat_replicate_zero]
  have hds : ∀ d ∈ natToB58 (beToNat bs), d < 58 :=
    natToBase_digits_lt 58 (by omega) _
  have hmap : (b58Encode bs).map Char.toNat =
      List.replicate k 49 ++
        (natToB58 (beToNat bs)).map (fun d => (b58Char d).toNat) := by
    simp [b58Encode, List.map_replicate, Function.comp]
  have hvals : b58Vals ((b58Encode bs).map Char.toNat) =
      some (List.replicate k 0 ++ natToB58 (beToNat bs)) := by
    rw [hmap]
    exact b58Vals_append _ _ _ _ (b58Vals_replicate_one k)
      (b58Vals_map_char _ hds)
  have hlead : leadOnes ((b58Encode bs).map Char.toNat) = k := by
    rw [hmap, leadOnes_replicate_append]
    have : leadOnes ((natToB58 (beToNat bs)).map
        (fun d => (b58Char d).toNat)) = 0 := by
      apply leadOnes_of_head_ne
      by_cases hz : beToNat bs = 0
      · simp [natToB58, hz, natToBase_zero]
      · obtain ⟨hne, hhd⟩ := natToBase_head 58 (by omega) (beToNat bs) hz
        rw [natToB58]
        cases hcs : natToBase 58 (beToNat bs) with
        | nil => exact absurd hcs hne
        | cons d t =>
          rw [hcs] at hhd
          simp only [List.headD_cons] at hhd
          simp only [List.map_cons, List.headD_cons]
          exact b58Char_ne_one d
            (hds d (by rw [natToB58, hcs]; simp)) hhd
    omega
  have hval : baseToNat 58 (List.replicate k 0 ++ natToB58 (beToNat bs)) =
      beToNat bs := by
    rw [baseToNat_replicate_zero, natToB58, baseToNat_natToBase 58 (by omega)]
  simp only [b58Decode, Option.bind_eq_bind, hvals, Option.some_bind, hlead,
    hval, Option.some_inj]
  rw [hn, natToBE, natToBase_baseToNat_of_head 256 (by omega) rest hrb]
  · rw [Option.pure_def, Option.some_inj]
    exact hk
  · cases hre : rest with
    | nil => exact Or.inl rfl
    | cons r t =>
      refine Or.inr ?_
      rw [hre] at hkh
      simpa using hkh

/-! ## Hash output shape -/

/-- A masked byte is below 256. -/
theorem and255_lt (x : Nat) : x &&& 255 < 256 :=
  Nat.lt_succ_of_le (Nat.and_le_right)

/-- Big-endian word bytes are below 256. -/
theorem be32_lt (x : Nat) : ∀ b ∈ be32 x, b < 256 := by
  intro b hb
  simp only [be32, List.mem_cons, List.not_mem_nil, or_false] at hb
  rcases hb with rfl | rfl | rfl | rfl <;> exact and255_lt _

/-- Little-endian word bytes are below 256. -/
theorem le32_lt (x : Nat) : ∀ b ∈ le32 x, b < 256 := by
  intro b hb
  simp only [le32, List.mem_cons, List.not_mem_nil, or_false] at hb
  rcases hb with rfl | rfl | rfl | rfl <;> exact and255_lt _

/-- SHA-256 yields 32 bytes. -/
theorem sha256_length (msg : List Nat) : (sha256 msg).length = 32 := by
  simp [sha256, be32]

/-- SHA-256 bytes are below 256. -/
theorem sha256_lt (msg : List Nat) : ∀ b ∈ sha256 msg, b < 256 := by
  intro b hb
  simp only [sha256, List.mem_append] at hb
  rcases hb with ((((((h | h) | h) | h) | h) | h) | h) | h <;>
    exact be32_lt _ b h

/-- RIPEMD-160 yields 20 bytes. -/
theorem ripemd160_length (msg : List Nat) : (ripemd160 msg).length = 20 := by
  simp [ripemd160, le32]

/-- RIPEMD-160 bytes are below 256. -/
theorem ripemd160_lt (msg : List Nat) : ∀ b ∈ ripemd160 msg, b < 256 := by
  intro b hb
  simp only [ripemd160, List.mem_append] at hb
  rcases hb with (((h | h) | h) | h) | h <;> exact le32_lt _ b h

/-- HASH160 yields 20 bytes. -/
theorem hash160_length (msg : List Nat) : (hash160 msg).length = 20 :=
  ripemd160_length _

/-- HASH160 bytes are below 256. -/
theorem hash160_lt (msg : List Nat) : ∀ b ∈ hash160 msg, b < 256 :=
  ripemd160_lt _

/-- Double SHA-256 bytes are below 256. -/
theorem doubleSHA256_lt (msg : List Nat) : ∀ b ∈ doubleSHA256 msg, b < 256 :=
  sha256_lt _

/-- Base58Check decoding inverts Base58Check encoding for a version byte
and a 20-byte payload. -/
theorem b58CheckDecode_b58CheckEncode (v : Nat) (hv : v < 256)
    (payload : List Nat) (hp : ∀ b ∈ payload, b < 256)
    (hlen : payload.length = 20) :
    b58CheckDecode ((b58CheckEncode v payload).map Char.toNat) =
      .ok (v, payload) := by
  have hck : ∀ b ∈ (doubleSHA256 (v :: payload)).take 4, b < 256 :=
    fun b hb => doubleSHA256_lt _ b (List.mem_of_mem_take hb)
  have hbs : ∀ b ∈ (v :: payload) ++ (doubleSHA256 (v :: payload)).take 4,
      b < 256 := by
    intro b hb
    rcases List.mem_append.mp hb with h | h
    · rcases List.mem_cons.mp h with rfl | h
      · exact hv
      · exact hp b h
    · exact hck b h
  have hcl : ((doubleSHA256 (v :: payload)).take 4).length = 4 := by
    rw [List.length_take, doubleSHA256, sha256_length]
    omega
  have htot : ((v :: payload) ++
      (doubleSHA256 (v :: payload)).take 4).length = 25 := by
    simp [hcl, hlen]
  have hbl : (v :: payload).length = 21 := by simp [hlen]
  have hdec : b58Decode ((b58CheckEncode v payload).map Char.toNat) =
      some ((v :: payload) ++ (doubleSHA256 (v :: payload)).take 4) := by
    rw [b58CheckEncode]
    exact b58Decode_b58Encode _ hbs
  simp only [b58CheckDecode, hdec, htot]
  norm_num
  rw [List.take_left' hlen, List.drop_left' hlen]
  simp

/-! ## Bech32 checksum algebra -/

/-- Right shift distributes over xor. -/
theorem xor_shiftRight_distrib (a b i : Nat) :
    (a ^^^ b) >>> i = a >>> i ^^^ b >>> i := by
  apply Nat.eq_of_testBit_eq
  intro j
  simp

/-- Left shift distributes over xor. -/
theorem xor_shiftLeft_distrib (a b i : Nat) :
    (a ^^^ b) <<< i = a <<< i ^^^ b <<< i := by
  apply Nat.eq_of_testBit_eq
  intro j
  simp only [Nat.testBit_xor, Nat.testBit_shiftLeft]
  by_cases h : i ≤ j <;> simp [h]

/-- Masking with 31 is reduction mod 32. -/
theorem and_31_eq_mod (x : Nat) : x &&& 31 = x % 32 := by
  have h := Nat.and_pow_two_sub_one_eq_mod x 5
  norm_num at h
  exact h

/-- Xor of a multiple of 32 with a value below 32 is their sum. -/
theorem mul32_xor_eq_add (y b : Nat) (hb : b < 32) :
    32 * y ^^^ b = 32 * y + b := by
  have h1 : (32 * y ^^^ b) % 32 = b := by
    rw [← and_31_eq_mod, Nat.and_xor_distrib_right, and_31_eq_mod,
      and_31_eq_mod, Nat.mul_mod_right, Nat.mod_eq_of_lt hb]
    simp
  have h2 : (32 * y ^^^ b) / 32 = y := by
    have e1 : (32 * y ^^^ b) / 32 = (32 * y ^^^ b) >>> 5 := by
      rw [Nat.shiftRight_eq_div_pow]
    rw [e1, xor_shiftRight_distrib, Nat.shiftRight_eq_div_pow,
      Nat.shiftRight_eq_div_pow, Nat.div_eq_of_lt (show b < 2 ^ 5 by omega),
      show (2:Nat) ^ 5 = 32 from rfl,
      Nat.mul_div_cancel_left y (by norm_num : (0:Nat) < 32)]
    simp
  omega

/-- Shuffling a Bool xor chain: the data bit moves outermost. -/
theorem bool_xor_chain_data (a d c1 c2 c3 c4 c5 : Bool) :
    Bool.xor (Bool.xor (Bool.xor (Bool.xor (Bool.xor
        (Bool.xor a d) c1) c2) c3) c4) c5 =
      Bool.xor (Bool.xor (Bool.xor (Bool.xor (Bool.xor (Bool.xor
        (Bool.xor a false) c1) c2) c3) c4) c5) d := by
  revert a d c1 c2 c3 c4 c5
  decide

/-- Shuffling a Bool xor chain: the low-value bit moves outermost. -/
theorem bool_xor_chain_low (a y d c1 c2 c3 c4 c5 : Bool) :
    Bool.xor (Bool.xor (Bool.xor (Bool.xor (Bool.xor (Bool.xor
        (Bool.xor a y) d) c1) c2) c3) c4) c5 =
      Bool.xor (Bool.xor (Bool.xor (Bool.xor (Bool.xor (Bool.xor
        (Bool.xor a d) c1) c2) c3) c4) c5) y := by
  revert a y d c1 c2 c3 c4 c5
  decide

/-- The polymod step is the zero-data step xored with the data value. -/
theorem polymodStep_data (s d : Nat) :
    polymodStep s d = polymodStep s 0 ^^^ d := by
  simp only [polymodStep]
  apply Nat.eq_of_testBit_eq
  intro i
  simp only [Nat.testBit_xor, Nat.zero_testBit]
  exact bool_xor_chain_data _ _ _ _ _ _ _

/-- Xoring a sub-25-bit value into the state shifts it into the next
step's output. -/
theorem polymodStep_xor_low (a y d : Nat) (hy : y < 2 ^ 25) :
    polymodStep (a ^^^ y) d = polymodStep a d ^^^ y <<< 5 := by
  have htop : (a ^^^ y) >>> 25 = a >>> 25 := by
    rw [xor_shiftRight_distrib, Nat.shiftRight_eq_div_pow y,
      Nat.div_eq_of_lt hy]
    simp
  have hand : (a ^^^ y) &&& 0x1ffffff = (a &&& 0x1ffffff) ^^^ y := by
    rw [Nat.and_xor_distrib_right]
    congr 1
    have h25 : (0x1ffffff : Nat) = 2 ^ 25 - 1 := by norm_num
    rw [h25, Nat.and_pow_two_sub_one_eq_mod, Nat.mod_eq_of_lt hy]
  simp only [polymodStep, htop, hand, xor_shiftLeft_distrib]
  apply Nat.eq_of_testBit_eq
  intro i
  simp only [Nat.testBit_xor]
  exact bool_xor_chain_low _ _ _ _ _ _ _ _

/-- The polymod state stays below `2 ^ 30`. -/
theorem polymodStep_lt (s v : Nat) (hv : v < 2 ^ 30) :
    polymodStep s v < 2 ^ 30 := by
  simp only [polymodStep]
  have h1 : (s &&& 0x1ffffff) <<< 5 < 2 ^ 30 := by
    have hle : s &&& 0x1ffffff ≤ 0x1ffffff := Nat.and_le_right
    rw [Nat.shiftLeft_eq]
    calc (s &&& 0x1ffffff) * 2 ^ 5 ≤ 0x1ffffff * 2 ^ 5 :=
      Nat.mul_le_mul_right _ hle
    _ < 2 ^ 30 := by norm_num
  apply Nat.xor_lt_two_pow ?_ (by split <;> norm_num)
  apply Nat.xor_lt_two_pow ?_ (by split <;> norm_num)
  apply Nat.xor_lt_two_pow ?_ (by split <;> norm_num)
  apply Nat.xor_lt_two_pow ?_ (by split <;> norm_num)
  apply Nat.xor_lt_two_pow ?_ (by split <;> norm_num)
  exact Nat.xor_lt_two_pow h1 hv

/-- Folding the polymod over bounded values stays below `2 ^ 30`. -/
theorem polymod_foldl_lt : ∀ (vs : List Nat) (s : Nat), s < 2 ^ 30 →
    (∀ v ∈ vs, v < 2 ^ 30) → vs.foldl polymodStep s < 2 ^ 30 := by
  intro vs
  induction vs with
  | nil => intro s hs _; simpa using hs
  | cons v t ih =>
    intro s hs hv
    simp only [List.foldl_cons]
    exact ih _ (polymodStep_lt s v (hv v (by simp)))
      (fun w hw => hv w (by simp [hw]))

/-- Folding the polymod over the 5-bit digits of a value equals folding
over zeros and xoring the value in. -/
theorem foldl_polymodStep_pad : ∀ (L : Nat), 5 * L ≤ 30 →
    ∀ (x s : Nat), x < 2 ^ (5 * L) →
    (natToBasePad 32 L x).foldl polymodStep s =
      (List.replicate L 0).foldl polymodStep s ^^^ x := by
  intro L
  induction L with
  | zero =>
    intro _ x s hx
    have hx0 : x = 0 := by simpa using hx
    subst hx0
    simp [natToBasePad]
  | succ L ih =>
    intro hL x s hx
    have hL5 : 5 * L ≤ 30 := by omega
    have hdiv : x / 32 < 2 ^ (5 * L) := by
      have hpow : (2:Nat) ^ (5 * (L + 1)) = 2 ^ (5 * L) * 32 := by
        rw [show 5 * (L + 1) = 5 * L + 5 by ring, pow_add]
        rfl
      rw [Nat.div_lt_iff_lt_mul (by norm_num)]
      omega
    have hy : x / 32 < 2 ^ 25 := by
      have h25 : (2:Nat) ^ (5 * L) ≤ 2 ^ 25 :=
        Nat.pow_le_pow_right (by norm_num) (by omega)
      omega
    show ((natToBasePad 32 L (x / 32)) ++ [x % 32]).foldl polymodStep s = _
    rw [List.foldl_append, ih hL5 (x / 32) s hdiv]
    simp only [List.foldl_cons, List.foldl_nil]
    rw [polymodStep_xor_low _ _ _ hy, polymodStep_data,
      List.replicate_succ' L 0, List.foldl_append]
    simp only [List.foldl_cons, List.foldl_nil]
    rw [Nat.xor_assoc]
    congr 1
    rw [Nat.shiftLeft_eq, show x / 32 * 2 ^ 5 = 32 * (x / 32) by ring,
      Nat.xor_comm, mul32_xor_eq_add _ _ (Nat.mod_lt x (by norm_num))]
    omega

/-- Fixed-width base-32 digits of a value, width six, written out. -/
theorem natToBasePad32_six (n : Nat) :
    natToBasePad 32 6 n =
      [n / 32 ^ 5 % 32, n / 32 ^ 4 % 32, n / 32 ^ 3 % 32,
       n / 32 ^ 2 % 32, n / 32 % 32, n % 32] := by
  simp [natToBasePad, Nat.div_div_eq_div_mul]

/-- The appended checksum is the six-digit base-32 expansion of the
closing polymod value. -/
theorem bechChecksum_eq_pad (hrp data : List Nat) :
    bechChecksum hrp data =
      natToBasePad 32 6
        (polymod (hrpExpand hrp ++ data ++ [0, 0, 0, 0, 0, 0]) ^^^ 1) := by
  set pm := polymod (hrpExpand hrp ++ data ++ [0, 0, 0, 0, 0, 0]) ^^^ 1
    with hpm
  simp only [bechChecksum, ← hpm]
  rw [natToBasePad32_six, show List.range 6 = [0, 1, 2, 3, 4, 5] from rfl]
  simp only [List.map_cons, List.map_nil]
  norm_num [and_31_eq_mod, Nat.shiftRight_eq_div_pow]

/-- A Bech32 string built with `bechChecksum` passes the decoder's
polymod verification. -/
theorem polymod_checksum_verified (hrp data : List Nat)
    (hh : ∀ v ∈ hrpExpand hrp ++ data, v < 2 ^ 30) :
    polymod (hrpExpand hrp ++ (data ++ bechChecksum hrp data)) = 1 := by
  set s := (hrpExpand hrp ++ data).foldl polymodStep 1 with hs
  have hz : polymod (hrpExpand hrp ++ data ++ [0, 0, 0, 0, 0, 0]) =
      (List.replicate 6 0).foldl polymodStep s := by
    rw [polymod, List.foldl_append, hs]
    rfl
  have hpm : polymod (hrpExpand hrp ++ data ++ [0, 0, 0, 0, 0, 0]) ^^^ 1 <
      2 ^ 30 := by
    apply Nat.xor_lt_two_pow ?_ (by norm_num)
    rw [hz]
    apply polymod_foldl_lt _ _ (polymod_foldl_lt _ 1 (by norm_num) hh)
    intro v hv
    have := List.eq_of_mem_replicate hv
    omega
  rw [polymod, ← List.append_assoc, List.foldl_append, ← hs,
    bechChecksum_eq_pad, foldl_polymodStep_pad 6 (by norm_num) _ _ hpm,
    ← hz]
  rw [← Nat.xor_assoc, Nat.xor_self, Nat.zero_xor]

/-! ## Bech32 decode of encode -/

/-- Each Bech32 digit decodes back from its charset character. -/
theorem bechVal_bechChar (d : Nat) (hd : d < 32) :
    bechVal ((bechChar d).toNat) = some d := by
  revert d hd
  decide

/-- No Bech32 data character is the separator `1`. -/
theorem bechChar_ne_sep (d : Nat) (hd : d < 32) :
    (bechChar d).toNat ≠ 49 := by
  revert d hd
  decide

/-- Bech32 data characters are not uppercase. -/
theorem bechChar_not_upper (d : Nat) (hd : d < 32) :
    isUpperN ((bechChar d).toNat) = false := by
  revert d hd
  decide

/-- Decoding Bech32 characters distributes over append. -/
theorem bechVals_append (xs : List Nat) :
    ∀ ys vx vy, bechVals xs = some vx → bechVals ys = some vy →
    bechVals (xs ++ ys) = some (vx ++ vy) := by
  induction xs with
  | nil =>
    intro ys vx vy hx hy
    simp [bechVals] at hx
    subst hx
    simpa using hy
  | cons c rest ih =>
    intro ys vx vy hx hy
    rw [List.cons_append]
    simp only [bechVals, Option.bind_eq_bind] at hx ⊢
    cases hv : bechVal c with
    | none => rw [hv] at hx; simp at hx
    | some v =>
      rw [hv] at hx
      simp only [Option.some_bind] at hx ⊢
      cases ht : bechVals rest with
      | none => rw [ht] at hx; simp at hx
      | some tl =>
        rw [ht] at hx
        simp only [Option.some_bind, Option.some_inj] at hx
        rw [ih ys tl vy ht hy]
        simp only [Option.pure_def, Option.some_inj] at hx
        subst hx
        simp

/-- Charset characters of digits below 32 decode to those digits. -/
theorem bechVals_map_char (ds : List Nat) (hds : ∀ d ∈ ds, d < 32) :
    bechVals (ds.map (fun d => (bechChar d).toNat)) = some ds := by
  induction ds with
  | nil => rfl
  | cons d t ih =>
    simp only [List.map_cons, bechVals, Option.bind_eq_bind]
    rw [bechVal_bechChar d (hds d (by simp)),
      ih (fun x hx => hds x (by simp [hx]))]
    rfl

/-- Fixed-width digits are below the base. -/
theorem natToBasePad_digits_lt (base : Nat) (hb : 0 < base) :
    ∀ w n d, d ∈ natToBasePad base w n → d < base := by
  intro w
  induction w with
  | zero => intro n d hd; simp [natToBasePad] at hd
  | succ w ih =>
    intro n d hd
    simp only [natToBasePad, List.mem_append, List.mem_singleton] at hd
    rcases hd with h | h
    · exact ih (n / base) d h
    · subst h
      exact Nat.mod_lt n hb

/-- The index search skips an absent-element run. -/
theorem indexOf?_append_of_not_mem (x : Nat) :
    ∀ (as bs : List Nat), ¬ x ∈ as →
    (as ++ bs).indexOf? x = (bs.indexOf? x).map (· + as.length) := by
  intro as
  induction as with
  | nil => intro bs _; simp
  | cons a t ih =>
    intro bs hmem
    have ha : ¬ a = x := fun h => hmem (by simp [h])
    rw [List.cons_append, List.indexOf?_cons]
    rw [if_neg (by simpa using ha), ih bs (fun h => hmem (by simp [h]))]
    cases bs.indexOf? x with
    | none => simp
    | some j =>
      simp only [Option.map_some']
      rfl

/-- The last separator in a separator-free-tailed split. -/
theorem lastIndexOf_split (xs ys : List Nat) (hys : ¬ 49 ∈ ys) :
    lastIndexOf 49 (xs ++ 49 :: ys) = some xs.length := by
  have hrev : (xs ++ 49 :: ys).reverse = ys.reverse ++ 49 :: xs.reverse := by
    simp
  have hmem : ¬ 49 ∈ ys.reverse := by simpa using hys
  have hidx : (ys.reverse ++ 49 :: xs.reverse).indexOf? 49 =
      some ys.length := by
    rw [indexOf?_append_of_not_mem 49 _ _ hmem, List.indexOf?_cons]
    simp
  rw [lastIndexOf, hrev, hidx]
  simp only [Option.map_some', Option.some_inj, List.length_append,
    List.length_cons, List.length_reverse]
  omega

/-- Lowercasing a string with no uppercase characters is the identity. -/
theorem map_toLowerN_id (cs : List Nat)
    (h : ∀ c ∈ cs, isUpperN c = false) : cs.map toLowerN = cs := by
  induction cs with
  | nil => rfl
  | cons c t ih =>
    simp only [List.map_cons]
    rw [show toLowerN c = c by simp [toLowerN, h c (by simp)],
      ih (fun x hx => h x (by simp [hx]))]

/-- The checksum consists of six values below 32. -/
theorem bechChecksum_lt (hrp data : List Nat) :
    ∀ d ∈ bechChecksum hrp data, d < 32 := by
  intro d hd
  rw [bechChecksum_eq_pad] at hd
  exact natToBasePad_digits_lt 32 (by norm_num) 6 _ d hd

/-- The checksum has six values. -/
theorem bechChecksum_length (hrp data : List Nat) :
    (bechChecksum hrp data).length = 6 := by
  rw [bechChecksum_eq_pad, natToBasePad_length]

/-- Decoding a freshly encoded Bech32 string recovers the
human-readable part and the data values. -/
theorem bechDecode_bechEncode (hrp data : List Nat)
    (hmap : ∀ c ∈ hrp, (Char.ofNat c).toNat = c)
    (hupper : ∀ c ∈ hrp, isUpperN c = false)
    (hlen1 : 1 ≤ hrp.length)
    (h30 : ∀ c ∈ hrp, c < 2 ^ 30)
    (hdata : ∀ d ∈ data, d < 32) :
    bechDecode ((bechEncode hrp data).map Char.toNat) =
      .ok (hrp, data) := by
  have hall : ∀ d ∈ data ++ bechChecksum hrp data, d < 32 := by
    intro d hd
    rcases List.mem_append.mp hd with h | h
    · exact hdata d h
    · exact bechChecksum_lt hrp data d h
  have h1 : (hrp.map Char.ofNat).map Char.toNat = hrp := by
    rw [List.map_map]
    have h2 : hrp.map (Char.toNat ∘ Char.ofNat) = hrp.map id :=
      List.map_congr_left (fun a ha => by
        simpa [Function.comp] using hmap a ha)
    simpa using h2
  have hcs : (bechEncode hrp data).map Char.toNat =
      hrp ++ 49 :: (data ++ bechChecksum hrp data).map
        (fun d => (bechChar d).toNat) := by
    simp only [bechEncode, List.map_append, List.map_cons]
    rw [h1]
    simp only [List.map_map]
    rfl
  set tl := (data ++ bechChecksum hrp data).map
    (fun d => (bechChar d).toNat) with htl
  have htl49 : ¬ 49 ∈ tl := by
    rw [htl]
    intro hm
    obtain ⟨d, hd, he⟩ := List.mem_map.mp hm
    exact bechChar_ne_sep d (hall d hd) he
  have hupall : ∀ c ∈ hrp ++ 49 :: tl, isUpperN c = false := by
    intro c hc
    rcases List.mem_append.mp hc with h | h
    · exact hupper c h
    · rcases List.mem_cons.mp h with rfl | h
      · rfl
      · rw [htl] at h
        obtain ⟨d, hd, he⟩ := List.mem_map.mp h
        rw [← he]
        exact bechChar_not_upper d (hall d hd)
  have hanyU : (hrp ++ 49 :: tl).any isUpperN = false := by
    rw [List.any_eq_false]
    intro c hc
    simp [hupall c hc]
  have hlentl : tl.length = data.length + 6 := by
    rw [htl, List.length_map, List.length_append, bechChecksum_length]
  have hlen_all : (hrp ++ 49 :: tl).length =
      hrp.length + 1 + (data.length + 6) := by
    simp [hlentl]
    omega
  have hhb : ∀ v ∈ hrpExpand hrp ++ data, v < 2 ^ 30 := by
    intro v hv
    rw [hrpExpand] at hv
    rcases List.mem_append.mp hv with h | hd
    · rcases List.mem_append.mp h with h2 | h3
      · rcases List.mem_append.mp h2 with h4 | h5
        · obtain ⟨c, hc, he⟩ := List.mem_map.mp h4
          rw [← he, Nat.shiftRight_eq_div_pow]
          exact lt_of_le_of_lt (Nat.div_le_self _ _) (h30 c hc)
        · have hv0 : v = 0 := by simpa using h5
          omega
      · obtain ⟨c, hc, he⟩ := List.mem_map.mp h3
        rw [← he, and_31_eq_mod]
        have := Nat.mod_lt c (show 0 < 32 by norm_num)
        omega
    · have := hdata v hd
      omega
  have hver : polymod (hrpExpand hrp ++
      (data ++ bechChecksum hrp data)) = 1 :=
    polymod_checksum_verified hrp data hhb
  have hli := lastIndexOf_split hrp tl htl49
  have htake : (hrp ++ 49 :: tl).take hrp.length = hrp :=
    List.take_left hrp _
  have hdropn : (hrp ++ 49 :: tl).drop (hrp.length + 1) = tl := by
    rw [show hrp ++ 49 :: tl = (hrp ++ [49]) ++ tl by simp]
    exact List.drop_left' (by simp)
  have hbv : bechVals tl = some (data ++ bechChecksum hrp data) := by
    rw [htl]
    exact bechVals_map_char _ hall
  have hcond : ¬ (hrp.length < 1 ∨
      hrp.length + 7 > (hrp ++ 49 :: tl).length) := by
    rw [hlen_all]
    omega
  have hfin : (data ++ bechChecksum hrp data).take
      ((data ++ bechChecksum hrp data).length - 6) = data := by
    rw [List.length_append, bechChecksum_length,
      show data.length + 6 - 6 = data.length from by omega]
    exact List.take_left' rfl
  rw [hcs, bechDecode]
  rw [if_neg (fun hcon => by
    rw [hanyU] at hcon
    exact absurd hcon.1 (by simp))]
  rw [map_toLowerN_id _ hupall]
  simp only [hli, if_neg hcond, htake, hdropn, hbv, hver, hfin]
  simp

/-- Regrouping a 20-byte program gives its 32-digit base-32 expansion. -/
theorem toB32_twenty (prog : List Nat) (hlen : prog.length = 20) :
    toB32 prog = natToBasePad 32 32 (beToNat prog) := by
  simp only [toB32, hlen]
  norm_num [Nat.shiftLeft_zero]

/-- Regrouping back a full 32-digit base-32 list of a bounded value. -/
theorem fromB32_pad32 (n : Nat) (hn : n < 32 ^ 32) :
    fromB32 (natToBasePad 32 32 n) = some (natToBEPad 20 n) := by
  have hlen := natToBasePad_length 32 32 n
  have hval := baseToNat_natToBasePad 32 (by norm_num) 32 n hn
  simp only [fromB32, hlen, hval]
  norm_num [Nat.shiftLeft_zero, Nat.shiftRight_zero, Nat.mod_one]

/-- The strict regrouping inverts the padded one on 20-byte programs. -/
theorem fromB32_toB32 (prog : List Nat) (hp : ∀ b ∈ prog, b < 256)
    (hlen : prog.length = 20) :
    fromB32 (toB32 prog) = some prog := by
  have hval : beToNat prog < 32 ^ 32 := by
    rw [beToNat_eq_baseToNat]
    have hb := baseToNat_lt 256 (by norm_num) prog hp
    rw [hlen] at hb
    calc baseToNat 256 prog < 256 ^ 20 := hb
    _ = 32 ^ 32 := by norm_num
  rw [toB32_twenty prog hlen, fromB32_pad32 _ hval, natToBEPad,
    beToNat_eq_baseToNat, ← hlen,
    natToBasePad_baseToNat 256 (by norm_num) prog hp]

/-- Decoding a freshly encoded segwit address recovers witness version 0
and the program. -/
theorem segwitDecode_segwitEncode (hrp prog : List Nat)
    (hmap : ∀ c ∈ hrp, (Char.ofNat c).toNat = c)
    (hupper : ∀ c ∈ hrp, isUpperN c = false)
    (hlen1 : 1 ≤ hrp.length)
    (h30 : ∀ c ∈ hrp, c < 2 ^ 30)
    (hp : ∀ b ∈ prog, b < 256) (hlen : prog.length = 20) :
    segwitDecode hrp (strNats (segwitEncode hrp 0 prog)) =
      .ok (0, prog) := by
  have hdata : ∀ d ∈ 0 :: toB32 prog, d < 32 := by
    intro d hd
    rcases List.mem_cons.mp hd with rfl | h
    · norm_num
    · rw [toB32_twenty prog hlen] at h
      exact natToBasePad_digits_lt 32 (by norm_num) 32 _ d h
  have hdec : bechDecode
      ((bechEncode hrp (0 :: toB32 prog)).map Char.toNat) =
      .ok (hrp, 0 :: toB32 prog) :=
    bechDecode_bechEncode hrp _ hmap hupper hlen1 h30 hdata
  have hcs : strNats (segwitEncode hrp 0 prog) =
      (bechEncode hrp (0 :: toB32 prog)).map Char.toNat := rfl
  simp only [segwitDecode, hcs, hdec, exceptBindOk]
  simp [fromB32_toB32 prog hp hlen, hlen]

/-! ## Encoding-shape dispatch of address decoding -/

/-- A shape test fails when the first characters differ. -/
theorem looksBech32_false_of_head (cs hrp : List Nat) (hne : hrp ≠ [])
    (hhd : cs.headD 0 ≠ hrp.headD 0) :
    looksBech32 cs hrp = false := by
  rw [looksBech32]
  cases hli : lastIndexOf 49 cs with
  | none => rfl
  | some one =>
    apply decide_eq_false
    rintro ⟨h1, h2⟩
    cases cs with
    | nil =>
      apply hne
      rw [← h2]
      simp
    | cons c t =>
      cases one with
      | zero => omega
      | succ m =>
        apply hhd
        rw [← h2, List.take_succ_cons]
        rfl

/-- A version-zero Base58Check address starts with the character `1`. -/
theorem b58CheckEncode_head_zero (payload : List Nat) :
    ((b58CheckEncode 0 payload).map Char.toNat).headD 0 = 49 := by
  rw [b58CheckEncode, b58Encode]
  have hl : leadCount 0 ((0 :: payload) ++
      (doubleSHA256 (0 :: payload)).take 4) =
      leadCount 0 (payload ++ (doubleSHA256 (0 :: payload)).take 4) + 1 := by
    rw [List.cons_append, leadCount, if_pos rfl]
  rw [hl, List.replicate_succ]
  rfl

/-- The first digit of a positive-version Base58Check address lies in the
interval determined by the version byte. -/
theorem b58CheckEncode_head_pos (v : Nat) (hv1 : 1 ≤ v) (hv : v < 256)
    (payload : List Nat) (hp : ∀ b ∈ payload, b < 256)
    (hlen : payload.length = 20) (L dlo dhi : Nat) (hdlo : 1 ≤ dlo)
    (hdhi : dhi < 58)
    (hlow : dlo * 58 ^ L ≤ v * 256 ^ 24)
    (hhigh : (v + 1) * 256 ^ 24 ≤ (dhi + 1) * 58 ^ L) :
    ∃ d, dlo ≤ d ∧ d ≤ dhi ∧
      ((b58CheckEncode v payload).map Char.toNat).headD 0 =
        (b58Char d).toNat := by
  set rest := payload ++ (doubleSHA256 (v :: payload)).take 4 with hrest
  have hrlen : rest.length = 24 := by
    rw [hrest, List.length_append, hlen, List.length_take, doubleSHA256,
      sha256_length]
    omega
  have hrb : ∀ b ∈ rest, b < 256 := by
    intro b hb
    rcases List.mem_append.mp hb with hb2 | hb2
    · exact hp b hb2
    · exact doubleSHA256_lt _ b (List.mem_of_mem_take hb2)
  have hbs : (v :: payload) ++ (doubleSHA256 (v :: payload)).take 4 =
      v :: rest := by simp [hrest]
  set n := beToNat (v :: rest) with hn
  have hval : n = v * 256 ^ 24 + baseToNat 256 rest := by
    rw [hn, beToNat_eq_baseToNat, baseToNat_cons, hrlen]
  have hrv : baseToNat 256 rest < 256 ^ 24 := by
    have hb := baseToNat_lt 256 (by norm_num) rest hrb
    rw [hrlen] at hb
    exact hb
  have hn1 : v * 256 ^ 24 ≤ n := by omega
  have hn2 : n < (v + 1) * 256 ^ 24 := by
    have : (v + 1) * 256 ^ 24 = v * 256 ^ 24 + 256 ^ 24 := by ring
    omega
  have hp58 : (0:Nat) < 58 ^ L := Nat.pos_pow_of_pos _ (by norm_num)
  have hlo : dlo * 58 ^ L ≤ n := le_trans hlow hn1
  have hhi : n < (dhi + 1) * 58 ^ L := lt_of_lt_of_le hn2 hhigh
  have hL1 : 58 ^ L ≤ n := by
    calc 58 ^ L = 1 * 58 ^ L := by ring
    _ ≤ dlo * 58 ^ L := Nat.mul_le_mul_right _ hdlo
    _ ≤ n := hlo
  have hL2 : n < 58 ^ (L + 1) := by
    calc n < (dhi + 1) * 58 ^ L := hhi
    _ ≤ 58 * 58 ^ L := Nat.mul_le_mul_right _ (by omega)
    _ = 58 ^ (L + 1) := by ring
  have hlead : leadCount 0 ((v :: payload) ++
      (doubleSHA256 (v :: payload)).take 4) = 0 := by
    rw [List.cons_append, leadCount, if_neg (by omega)]
  refine ⟨n / 58 ^ L, ?_, ?_, ?_⟩
  · rw [Nat.le_div_iff_mul_le hp58]
    exact hlo
  · have := (Nat.div_lt_iff_lt_mul hp58).mpr hhi
    omega
  · rw [b58CheckEncode, b58Encode, hlead, List.replicate_zero,
      List.nil_append]
    have hbe : beToNat ((v :: payload) ++
        (doubleSHA256 (v :: payload)).take 4) = n := by
      rw [hbs, hn]
    rw [natToB58, hbe, natToBase_eq_pad 58 (by norm_num) L n hL1 hL2]
    have hplen : (natToBasePad 58 (L + 1) n).length = L + 1 :=
      natToBasePad_length 58 (L + 1) n
    have hhd := natToBasePad_headD 58 L n
    cases hpad : natToBasePad 58 (L + 1) n with
    | nil => rw [hpad] at hplen; simp at hplen
    | cons a t =>
      rw [hpad] at hhd
      simp only [List.headD_cons] at hhd
      simp only [List.map_cons, List.map_map, List.headD_cons]
      rw [hhd, Nat.mod_eq_of_lt]
      have := (Nat.div_lt_iff_lt_mul hp58).mpr hhi
      omega

/-- The code points of a Bech32 encoding, split at the separator. -/
theorem bechEncode_nats (hrp data : List Nat)
    (hmap : ∀ c ∈ hrp, (Char.ofNat c).toNat = c) :
    (bechEncode hrp data).map Char.toNat =
      hrp ++ 49 :: (data ++ bechChecksum hrp data).map
        (fun d => (bechChar d).toNat) := by
  have h1 : (hrp.map Char.ofNat).map Char.toNat = hrp := by
    rw [List.map_map]
    have h2 : hrp.map (Char.toNat ∘ Char.ofNat) = hrp.map id :=
      List.map_congr_left (fun a ha => by
        simpa [Function.comp] using hmap a ha)
    simpa using h2
  simp only [bechEncode, List.map_append, List.map_cons]
  rw [h1]
  simp only [List.map_map]
  rfl

/-- A freshly encoded segwit address is Bech32-shaped for its network. -/
theorem looksBech32_bechEncode (hrp data : List Nat)
    (hlen2 : 2 ≤ hrp.length) (hdata : ∀ d ∈ data, d < 32)
    (hmap : ∀ c ∈ hrp, (Char.ofNat c).toNat = c) :
    looksBech32 ((bechEncode hrp data).map Char.toNat) hrp = true := by
  have hall : ∀ d ∈ data ++ bechChecksum hrp data, d < 32 := by
    intro d hd
    rcases List.mem_append.mp hd with h | h
    · exact hdata d h
    · exact bechChecksum_lt hrp data d h
  have htl49 : ¬ 49 ∈ (data ++ bechChecksum hrp data).map
      (fun d => (bechChar d).toNat) := by
    intro hm
    obtain ⟨d, hd, he⟩ := List.mem_map.mp hm
    exact bechChar_ne_sep d (hall d hd) he
  rw [bechEncode_nats hrp data hmap, looksBech32,
    lastIndexOf_split hrp _ htl49]
  apply decide_eq_true
  exact ⟨by omega, List.take_left hrp _⟩

/-- A positive-version Base58Check address is never Bech32-shaped when its
possible first characters differ from the network prefix head. -/
theorem looksBech32_false_b58_pos (v : Nat) (hv1 : 1 ≤ v) (hv : v < 256)
    (payload : List Nat) (hp : ∀ b ∈ payload, b < 256)
    (hlen : payload.length = 20) (L dlo dhi : Nat) (hdlo : 1 ≤ dlo)
    (hdhi : dhi < 58)
    (hlow : dlo * 58 ^ L ≤ v * 256 ^ 24)
    (hhigh : (v + 1) * 256 ^ 24 ≤ (dhi + 1) * 58 ^ L)
    (hrp : List Nat) (hne : hrp ≠ [])
    (hchar : ∀ d, d < 58 → dlo ≤ d → d ≤ dhi →
      (b58Char d).toNat ≠ hrp.headD 0) :
    looksBech32 ((b58CheckEncode v payload).map Char.toNat) hrp = false := by
  obtain ⟨d, hd1, hd2, hhd⟩ := b58CheckEncode_head_pos v hv1 hv payload hp
    hlen L dlo dhi hdlo hdhi hlow hhigh
  apply looksBech32_false_of_head _ _ hne
  rw [hhd]
  exact hchar d (by omega) hd1 hd2

/-- A version-zero Base58Check address is never Bech32-shaped when the
network prefix does not start with `1`. -/
theorem looksBech32_false_b58_zero (payload hrp : List Nat)
    (hne : hrp ≠ []) (hhd : hrp.headD 0 ≠ 49) :
    looksBech32 ((b58CheckEncode 0 payload).map Char.toNat) hrp = false := by
  apply looksBech32_false_of_head _ _ hne
  rw [b58CheckEncode_head_zero]
  exact fun he => hhd he.symm

/-- Validation round-trips a Base58Check address whose version byte
matches one of the network identifiers. -/
theorem validateAddress_b58 (params : ChainParams) (v : Nat)
    (hv : v < 256) (h : List Nat) (hh : ∀ b ∈ h, b < 256)
    (hlen : h.length = 20)
    (hlooks : looksBech32 ((b58CheckEncode v h).map Char.toNat)
      (params.bech32HRP.map Char.toNat) = false)
    (hbranch : v = params.pubKeyHashAddrID ∨
      (v ≠ params.pubKeyHashAddrID ∧ v = params.scriptHashAddrID)) :
    validateAddress ⟨b58CheckEncode v h⟩ params =
      .ok ⟨b58CheckEncode v h⟩ := by
  have hdec := b58CheckDecode_b58CheckEncode v hv h hh hlen
  have hstr : strNats (⟨b58CheckEncode v h⟩ : String) =
      (b58CheckEncode v h).map Char.toNat := rfl
  rcases hbranch with hb | ⟨hb1, hb2⟩
  · have hda : decodeAddress ((b58CheckEncode v h).map Char.toNat) params =
        .ok (.p2pkh h) := by
      rw [decodeAddress, if_neg (by simp [hlooks])]
      simp only [hdec]
      rw [if_neg (by simp [hlen]), if_pos hb]
    rw [validateAddress, hstr]
    simp only [hda]
    rw [encodeDecoded, ← hb]
  · have hda : decodeAddress ((b58CheckEncode v h).map Char.toNat) params =
        .ok (.p2sh h) := by
      rw [decodeAddress, if_neg (by simp [hlooks])]
      simp only [hdec]
      rw [if_neg (by simp [hlen]), if_neg hb1, if_pos hb2]
    rw [validateAddress, hstr]
    simp only [hda]
    rw [encodeDecoded, ← hb2]

/-- Validation round-trips a native-segwit address. -/
theorem validateAddress_segwit (params : ChainParams) (h : List Nat)
    (hh : ∀ b ∈ h, b < 256) (hlen : h.length = 20)
    (hmap : ∀ c ∈ params.bech32HRP.map Char.toNat,
      (Char.ofNat c).toNat = c)
    (hupper : ∀ c ∈ params.bech32HRP.map Char.toNat, isUpperN c = false)
    (hlen2 : 2 ≤ (params.bech32HRP.map Char.toNat).length)
    (h30 : ∀ c ∈ params.bech32HRP.map Char.toNat, c < 2 ^ 30) :
    validateAddress (segwitEncode (params.bech32HRP.map Char.toNat) 0 h)
      params =
      .ok (segwitEncode (params.bech32HRP.map Char.toNat) 0 h) := by
  have hdata : ∀ d ∈ 0 :: toB32 h, d < 32 := by
    intro d hd
    rcases List.mem_cons.mp hd with rfl | hm
    · norm_num
    · rw [toB32_twenty h hlen] at hm
      exact natToBasePad_digits_lt 32 (by norm_num) 32 _ d hm
  have hstr : strNats (segwitEncode (params.bech32HRP.map Char.toNat) 0 h)
      = (bechEncode (params.bech32HRP.map Char.toNat)
          (0 :: toB32 h)).map Char.toNat := rfl
  have hlooks := looksBech32_bechEncode (params.bech32HRP.map Char.toNat)
    (0 :: toB32 h) hlen2 hdata hmap
  have hsd := segwitDecode_segwitEncode (params.bech32HRP.map Char.toNat)
    h hmap hupper (by omega) h30 hh hlen
  have hda : decodeAddress
      (strNats (segwitEncode (params.bech32HRP.map Char.toNat) 0 h))
      params = .ok (.p2wpkh h) := by
    rw [decodeAddress, hstr, if_pos (by rw [hlooks])]
    rw [← hstr]
    simp only [hsd]
    rw [if_pos ⟨by trivial, hlen⟩]
  rw [validateAddress]
  simp only [hda]
  rfl

/-- C5: for every supported network's chain parameters and every address
encoding accepted by `EncodeAddress`, validating the encoded address of a
parsable public key succeeds and returns the very address string the
encoder produced. -/
theorem validate_encode_roundtrip (publicKey : List Nat)
    (encoding : AddressEncoding) (params : ChainParams) (a : String)
    (hparams : params ∈ supportedParams)
    (hok : encodeAddress publicKey encoding params = .ok a) :
    validateAddress a params = .ok a := by
  simp only [supportedParams, List.mem_cons, List.not_mem_nil,
    or_false] at hparams
  cases hpk : parsePubKey publicKey with
  | error e =>
    rw [encodeAddress, hpk] at hok
    exact absurd hok (by simp)
  | ok P =>
    simp only [encodeAddress, hpk] at hok
    by_cases he0 : encoding = legacyEnc
    · rw [if_pos he0] at hok
      injection hok with ha
      subst ha
      rcases hparams with rfl | rfl | rfl | rfl | rfl
      · exact validateAddress_b58 mainNetParams 0 (by norm_num)
          (hash160 (serCompressed P)) (hash160_lt _) (hash160_length _)
          (looksBech32_false_b58_zero _ _ (by decide) (by decide))
          (Or.inl rfl)
      · exact validateAddress_b58 testNet3Params 111 (by norm_num)
          (hash160 (serCompressed P)) (hash160_lt _) (hash160_length _)
          (looksBech32_false_b58_pos 111 (by norm_num) (by norm_num) _
            (hash160_lt _) (hash160_length _) 33 44 45 (by norm_num)
            (by norm_num) (by norm_num) (by norm_num) _ (by decide)
            (by decide))
          (Or.inl rfl)
      · exact validateAddress_b58 regressionNetParams 111 (by norm_num)
          (hash160 (serCompressed P)) (hash160_lt _) (hash160_length _)
          (looksBech32_false_b58_pos 111 (by norm_num) (by norm_num) _
            (hash160_lt _) (hash160_length _) 33 44 45 (by norm_num)
            (by norm_num) (by norm_num) (by norm_num) _ (by decide)
            (by decide))
          (Or.inl rfl)
      · exact validateAddress_b58 litecoinMainNetParams 48 (by norm_num)
          (hash160 (serCompressed P)) (hash160_lt _) (hash160_length _)
          (looksBech32_false_b58_pos 48 (by norm_num) (by norm_num) _
            (hash160_lt _) (hash160_length _) 33 19 19 (by norm_num)
            (by norm_num) (by norm_num) (by norm_num) _ (by decide)
            (by decide))
          (Or.inl rfl)
      · exact validateAddress_b58 bitcoinCashMainNetParams 0 (by norm_num)
          (hash160 (serCompressed P)) (hash160_lt _) (hash160_length _)
          (looksBech32_false_b58_zero _ _ (by decide) (by decide))
          (Or.inl rfl)
    · rw [if_neg he0] at hok
      by_cases he1 : encoding = wrappedSegwitEnc
      · rw [if_pos he1] at hok
        injection hok with ha
        subst ha
        rcases hparams with rfl | rfl | rfl | rfl | rfl
        · exact validateAddress_b58 mainNetParams 5 (by norm_num)
            (hash160 (p2wpkhScript (hash160 (serCompressed P))))
            (hash160_lt _) (hash160_length _)
            (looksBech32_false_b58_pos 5 (by norm_num) (by norm_num) _
              (hash160_lt _) (hash160_length _) 33 2 2 (by norm_num)
              (by norm_num) (by norm_num) (by norm_num) _ (by decide)
              (by decide))
            (Or.inr ⟨by decide, rfl⟩)
        · exact validateAddress_b58 testNet3Params 196 (by norm_num)
            (hash160 (p2wpkhScript (hash160 (serCompressed P))))
            (hash160_lt _) (hash160_length _)
            (looksBech32_false_b58_pos 196 (by norm_num) (by norm_num) _
              (hash160_lt _) (hash160_length _) 34 1 1 (by norm_num)
              (by norm_num) (by norm_num) (by norm_num) _ (by decide)
              (by decide))
            (Or.inr ⟨by decide, rfl⟩)
        · exact validateAddress_b58 regressionNetParams 196 (by norm_num)
            (hash160 (p2wpkhScript (hash160 (serCompressed P))))
            (hash160_lt _) (hash160_length _)
            (looksBech32_false_b58_pos 196 (by norm_num) (by norm_num) _
              (hash160_lt _) (hash160_length _) 34 1 1 (by norm_num)
              (by norm_num) (by norm_num) (by norm_num) _ (by decide)
              (by decide))
            (Or.inr ⟨by decide, rfl⟩)
        · exact validateAddress_b58 litecoinMainNetParams 50 (by norm_num)
            (hash160 (p2wpkhScript (hash160 (serCompressed P))))
            (hash160_lt _) (hash160_length _)
            (looksBech32_false_b58_pos 50 (by norm_num) (by norm_num) _
              (hash160_lt _) (hash160_length _) 33 20 20 (by norm_num)
              (by norm_num) (by norm_num) (by norm_num) _ (by decide)
              (by decide))
            (Or.inr ⟨by decide, rfl⟩)
        · exact validateAddress_b58 bitcoinCashMainNetParams 5 (by norm_num)
            (hash160 (p2wpkhScript (hash160 (serCompressed P))))
            (hash160_lt _) (hash160_length _)
            (looksBech32_false_b58_pos 5 (by norm_num) (by norm_num) _
              (hash160_lt _) (hash160_length _) 33 2 2 (by norm_num)
              (by norm_num) (by norm_num) (by norm_num) _ (by decide)
              (by decide))
            (Or.inr ⟨by decide, rfl⟩)
      · rw [if_neg he1] at hok
        by_cases he2 : encoding = nativeSegwitEnc
        · rw [if_pos he2] at hok
          injection hok with ha
          subst ha
          rcases hparams with rfl | rfl | rfl | rfl | rfl
          · exact validateAddress_segwit mainNetParams
              (hash160 (serCompressed P)) (hash160_lt _) (hash160_length _)
              (by decide) (by decide) (by decide) (by decide)
          · exact validateAddress_segwit testNet3Params
              (hash160 (serCompressed P)) (hash160_lt _) (hash160_length _)
              (by decide) (by decide) (by decide) (by decide)
          · exact validateAddress_segwit regressionNetParams
              (hash160 (serCompressed P)) (hash160_lt _) (hash160_length _)
              (by decide) (by decide) (by decide) (by decide)
          · exact validateAddress_segwit litecoinMainNetParams
              (hash160 (serCompressed P)) (hash160_lt _) (hash160_length _)
              (by decide) (by decide) (by decide) (by decide)
          · exact validateAddress_segwit bitcoinCashMainNetParams
              (hash160 (serCompressed P)) (hash160_lt _) (hash160_length _)
              (by decide) (by decide) (by decide) (by decide)
        · rw [if_neg he2] at hok
          exact absurd hok (by simp)

/-- Closed witness for the round-trip: the compressed generator point
encodes to a legacy mainnet address, and validating that address returns
the same string. -/
theorem validate_encode_roundtrip_witness :
    encodeAddress (serCompressed ptG) legacyEnc mainNetParams =
      .ok ("1BgGZ9tcN4rm9KBzDn7KprQz87SZ26SAMH") ∧
    validateAddress ("1BgGZ9tcN4rm9KBzDn7KprQz87SZ26SAMH") mainNetParams =
      .ok ("1BgGZ9tcN4rm9KBzDn7KprQz87SZ26SAMH") := by
  have henc : encodeAddress (serCompressed ptG) legacyEnc mainNetParams =
      .ok ("1BgGZ9tcN4rm9KBzDn7KprQz87SZ26SAMH") := by decide
  exact ⟨henc, validate_encode_roundtrip (serCompressed ptG) legacyEnc
    mainNetParams ("1BgGZ9tcN4rm9KBzDn7KprQz87SZ26SAMH") (by decide) henc⟩

end BtcLib
